import Mathlib

/-!
csweb: the TCC fence of pkg/csweb-utils/seata.go and the token bucket of
pkg/csweb-utils/token_bucket.go.

A shallow embedding of PrepareFence, CommitFence and RollbackFence, and further down
of NewTokenBucket, Limit and WithRateLimit.

* The database is a value of `Store`: the rows of the tx_log table in insertion
  order, next to the business data the callbacks write.
* `db.Begin()` hands the phase a working copy of the store; `tx.Commit()` makes the
  working copy the durable store, `tx.Rollback()` drops it.
* Every storage call of a phase can fail: `Faults` carries, per call, the error the
  storage answers with (none when the call goes through).
* A business callback either returns (with the working copy it leaves behind) or
  panics: `Call`. The encoder json.Marshal returns or panics too: `Encoded`.
* A phase result records the contexts the phase ran its callback on: `seen`.
* Named results and the deferred closure are followed literally: each `return` of the
  Go body sets (ok, err) and then runs the deferred function on them.
-/

namespace Csweb

/-- The type TxLogState of seata.go, the three iota constants. -/
inductive TxLogState where
  | TxLogStateInit
  | TxLogStateCommit
  | TxLogStateRollback
deriving DecidableEq

/-- A byte slice. -/
abbrev Bytes := List (Fin 256)

/-- The struct TxLog: the fields seata.go declares. The embedded gorm.Model (row id
and timestamps) carries nothing the phases read. -/
structure TxLog where
  Xid : String
  BranchId : String
  ActionName : String
  LogDetail : Bytes
  TxLogState : TxLogState
deriving DecidableEq

/-- The error values the phases build or pass on. -/
inductive Error where
  /-- errors.New("bad ctx without business action context") -/
  | badCtx
  /-- errors.New("prepare failed"), set after a recovered panic -/
  | prepareFailed
  /-- errors.New("commit failed"), set after a recovered panic -/
  | commitFailed
  /-- errors.New("rollback failed"), set after a recovered panic -/
  | rollbackFailed
  /-- gorm.ErrRecordNotFound -/
  | ErrRecordNotFound
  /-- fmt.Errorf("json marshal tx log detail failed, err: %s", err) -/
  | marshalFailed (cause : Error)
  /-- fmt.Errorf("unexpected tx log state rollback in phase confirm, ...") -/
  | unexpectedRollback (xid branchId : String)
  /-- fmt.Errorf("unexpected tx log state confirm in phase cancel, ...") -/
  | unexpectedCommit (xid branchId : String)
  /-- fmt.Errorf("get tx log failed, err: %s", err.Error()) -/
  | getTxLogFailed (cause : Error)
  /-- the storage refusing a second row for one (xid, branch_id) -/
  | duplicateEntry
  /-- any other error of the storage, the encoder or a business callback -/
  | other (msg : String)
deriving DecidableEq

/-- The descriptor tm.GetBusinessActionContext reads from the context. -/
structure BusinessActionContext where
  Xid : String
  BranchId : Int
  ActionName : String
deriving DecidableEq

/-- What the phases read from a context.Context: the business action context (nil
when absent) and the value stored under txLogKey. -/
structure Context where
  businessActionContext : Option BusinessActionContext
  txLog : Option TxLog
deriving DecidableEq

/-- context.WithValue(ctx, txLogKey, txLog). -/
def Context.WithValue (ctx : Context) (txLog : TxLog) : Context :=
  { businessActionContext := ctx.businessActionContext, txLog := some txLog }

/-- The database: the tx_log rows in insertion order and the business data. -/
structure Store (β : Type) where
  txLogs : List TxLog
  business : β
deriving DecidableEq

/-- The errors the storage answers with during one phase, one slot per storage call
the phase can make (none: the call goes through). -/
structure Faults where
  First : Option Error
  Create : Option Error
  Updates : Option Error
  Commit : Option Error
deriving DecidableEq

/-- The storage with no failure. -/
def Faults.none : Faults := ⟨Option.none, Option.none, Option.none, Option.none⟩

/-- One run of a business callback: it returns its results and leaves the working
copy `tx`, or it panics. -/
inductive Call (ρ β : Type) where
  | returned (r : ρ) (tx : Store β)
  | panicked

/-- The prepare callback: func(ctx, tx) (txLogObj interface{}, ok bool, err error).
A nil interface value is `none`. -/
abbrev PrepareFn (ω β : Type) := Context → Store β → Call (Option ω × Bool × Option Error) β

/-- The confirm and cancel callbacks: func(ctx, tx) (ok bool, err error). -/
abbrev PhaseFn (β : Type) := Context → Store β → Call (Bool × Option Error) β

/-- What a call of json.Marshal does: it returns the bytes (nil slice: `none`), it
returns an error, or it panics (encoding/json panics again when a MarshalJSON method
of the value panics with a runtime error). -/
inductive Encoded where
  | ok (detail : Option Bytes)
  | error (e : Error)
  | panicked

/-- The encoder json.Marshal on the result object of the prepare callback. -/
abbrev Marshal (ω : Type) := Option ω → Encoded

/-- How the transaction of a phase ended. -/
inductive TxEnd where
  | notBegun
  | rolledBack
  | committed
  | commitFailed
deriving DecidableEq

/-- What a phase returns, (ok, err), with the durable store after the call, the end
of its transaction and the contexts it ran the business callback on, one per run. -/
structure FenceResult (β : Type) where
  ok : Bool
  err : Option Error
  db : Store β
  tx : TxEnd
  seen : List Context

/-- The number of times a phase ran the business callback. -/
def FenceResult.calls {β : Type} (r : FenceResult β) : Nat := r.seen.length

/-- strconv.FormatInt(i, 10). -/
def FormatInt (i : Int) : String := toString i

/-- The row filter "branch_id = ? and xid = ?". -/
def matchesKey (branchId xid : String) (r : TxLog) : Bool :=
  decide (r.BranchId = branchId ∧ r.Xid = xid)

/-- The locked read tx.Set("gorm:query_option", "FOR UPDATE").First(txLog, "branch_id = ?
and xid = ?", branchId, xid): the first matching row, gorm.ErrRecordNotFound when
there is none, or the error of the storage. -/
def First {β : Type} (f : Faults) (tx : Store β) (branchId xid : String) : Except Error TxLog :=
  match f.First with
  | some e => .error e
  | Option.none =>
    match tx.txLogs.find? (matchesKey branchId xid) with
    | some r => .ok r
    | Option.none => .error .ErrRecordNotFound

/-- The insert tx.Create(txLog): the row is appended to the table, or the storage
answers with an error and nothing is inserted. TxLog declares no index, so the insert
itself compares no rows; a storage whose table has a unique index on (xid, branch_id)
answers a second row of a pair with an error, which is one of the values of the
Create slot of `Faults`. -/
def Create {β : Type} (f : Faults) (tx : Store β) (txLog : TxLog) : Except Error (Store β) :=
  match f.Create with
  | some e => .error e
  | Option.none => .ok { txLogs := tx.txLogs ++ [txLog], business := tx.business }

/-- The update tx.Model(txLog).Where("branch_id = ? and xid = ?", branchId, xid)
.Updates(map "tx_log_state": s): the working copy after the call and its error. -/
def Updates {β : Type} (f : Faults) (tx : Store β) (branchId xid : String) (s : TxLogState) :
    Store β × Option Error :=
  match f.Updates with
  | some e => (tx, some e)
  | Option.none =>
    ({ txLogs := tx.txLogs.map (fun r =>
          if matchesKey branchId xid r then { r with TxLogState := s } else r),
       business := tx.business }, Option.none)

/-- The deferred closure of PrepareFence, run on the named results (ok, err):
a recovered panic sets err; a non-nil err rolls back; otherwise err becomes the
error of Commit and ok tells whether it is nil. -/
def prepareDeferred {β : Type} (f : Faults) (db tx : Store β) (recovered : Bool)
    (ok : Bool) (err : Option Error) (seen : List Context) : FenceResult β :=
  let err := if recovered then some Error.prepareFailed else err
  match err with
  | some e => ⟨ok, some e, db, .rolledBack, seen⟩
  | Option.none =>
    match f.Commit with
    | Option.none => ⟨true, Option.none, tx, .committed, seen⟩
    | some e => ⟨false, some e, db, .commitFailed, seen⟩

/-- PrepareFence of seata.go. The callback assigns the named results ok and err; a
panic of json.Marshal leaves them as the callback set them and runs the deferred
closure, which sets err and does not touch ok. -/
def PrepareFence {ω β : Type} (marshal : Marshal ω) (f : Faults) (ctx : Context)
    (db : Store β) (prepare : PrepareFn ω β) : FenceResult β :=
  match ctx.businessActionContext with
  | Option.none => ⟨false, some .badCtx, db, .notBegun, []⟩
  | some businessActionContext =>
    let xid := businessActionContext.Xid
    let actionName := businessActionContext.ActionName
    let brandId := businessActionContext.BranchId
    let tx := db
    match prepare ctx tx with
    | .panicked => prepareDeferred f db tx true false Option.none [ctx]
    | .returned (logDetail, ok, err) tx =>
      match err with
      | some e => prepareDeferred f db tx false false (some e) [ctx]
      | Option.none =>
        match marshal logDetail with
        | .panicked => prepareDeferred f db tx true ok Option.none [ctx]
        | .error e => prepareDeferred f db tx false false (some (.marshalFailed e)) [ctx]
        | .ok detail =>
          let detail := detail.getD []
          let txLog : TxLog :=
            { Xid := xid, BranchId := FormatInt brandId, ActionName := actionName,
              LogDetail := detail, TxLogState := .TxLogStateInit }
          match Create f tx txLog with
          | .error e => prepareDeferred f db tx false false (some e) [ctx]
          | .ok tx => prepareDeferred f db tx false true Option.none [ctx]

/-- The deferred closure of CommitFence: a recovered panic sets err; a non-nil err
rolls back; otherwise ok tells whether Commit went through, and err stays nil. -/
def commitDeferred {β : Type} (f : Faults) (db tx : Store β) (recovered : Bool)
    (ok : Bool) (err : Option Error) (seen : List Context) : FenceResult β :=
  let err := if recovered then some Error.commitFailed else err
  match err with
  | some e => ⟨ok, some e, db, .rolledBack, seen⟩
  | Option.none =>
    match f.Commit with
    | Option.none => ⟨true, Option.none, tx, .committed, seen⟩
    | some _ => ⟨false, Option.none, db, .commitFailed, seen⟩

/-- CommitFence of seata.go. -/
def CommitFence {β : Type} (f : Faults) (ctx : Context) (db : Store β)
    (confirm : PhaseFn β) : FenceResult β :=
  match ctx.businessActionContext with
  | Option.none => ⟨false, some .badCtx, db, .notBegun, []⟩
  | some businessActionContext =>
    let tx := db
    let xid := businessActionContext.Xid
    let branchId := FormatInt businessActionContext.BranchId
    match First f tx branchId xid with
    | .error e => commitDeferred f db tx false false (some e) []
    | .ok txLog =>
      if txLog.TxLogState = .TxLogStateCommit then
        commitDeferred f db tx false true Option.none []
      else if txLog.TxLogState = .TxLogStateRollback then
        commitDeferred f db tx false false (some (.unexpectedRollback xid branchId)) []
      else
        match confirm (ctx.WithValue txLog) tx with
        | .panicked => commitDeferred f db tx true false Option.none [ctx.WithValue txLog]
        | .returned (ok, err) tx =>
          if !ok then commitDeferred f db tx false ok err [ctx.WithValue txLog]
          else
            let (tx, err) := Updates f tx branchId xid .TxLogStateCommit
            let ok := if err.isSome then false else ok
            commitDeferred f db tx false ok err [ctx.WithValue txLog]

/-- The deferred closure of RollbackFence: a recovered panic sets err and clears ok;
a false ok rolls back; otherwise ok tells whether Commit went through. -/
def rollbackDeferred {β : Type} (f : Faults) (db tx : Store β) (recovered : Bool)
    (ok : Bool) (err : Option Error) (seen : List Context) : FenceResult β :=
  let err := if recovered then some Error.rollbackFailed else err
  let ok := if recovered then false else ok
  if !ok then ⟨ok, err, db, .rolledBack, seen⟩
  else
    match f.Commit with
    | Option.none => ⟨true, err, tx, .committed, seen⟩
    | some _ => ⟨false, err, db, .commitFailed, seen⟩

/-- RollbackFence of seata.go. -/
def RollbackFence {β : Type} (f : Faults) (ctx : Context) (db : Store β)
    (cancel : PhaseFn β) : FenceResult β :=
  match ctx.businessActionContext with
  | Option.none => ⟨false, some .badCtx, db, .notBegun, []⟩
  | some businessActionContext =>
    let tx := db
    let xid := businessActionContext.Xid
    let branchId := FormatInt businessActionContext.BranchId
    match First f tx branchId xid with
    | .error e =>
      if e = .ErrRecordNotFound then
        let txLog : TxLog :=
          { Xid := xid, BranchId := branchId,
            ActionName := businessActionContext.ActionName,
            TxLogState := .TxLogStateRollback, LogDetail := [] }
        match Create f tx txLog with
        | .error e => rollbackDeferred f db tx false false (some e) []
        | .ok tx => rollbackDeferred f db tx false true Option.none []
      else rollbackDeferred f db tx false false (some (.getTxLogFailed e)) []
    | .ok txLog =>
      if txLog.TxLogState = .TxLogStateRollback then
        rollbackDeferred f db tx false true Option.none []
      else if txLog.TxLogState = .TxLogStateCommit then
        rollbackDeferred f db tx false false (some (.unexpectedCommit xid branchId)) []
      else
        match cancel (ctx.WithValue txLog) tx with
        | .panicked => rollbackDeferred f db tx true false Option.none [ctx.WithValue txLog]
        | .returned (ok, err) tx =>
          if !ok then rollbackDeferred f db tx false false err [ctx.WithValue txLog]
          else
            let (tx, err) := Updates f tx branchId xid .TxLogStateRollback
            let _ok := if err.isSome then false else ok
            let ok := true
            rollbackDeferred f db tx false ok err [ctx.WithValue txLog]

/-- Successive deliveries of one phase for one context: each delivery comes with its
own storage faults and callback and works on the store the delivery before it left. -/
def deliveries {β : Type} (phase : Faults → Context → Store β → PhaseFn β → FenceResult β)
    (ctx : Context) : Store β → List (Faults × PhaseFn β) → List (FenceResult β)
  | _, [] => []
  | db, d :: rest =>
    (phase d.1 ctx db d.2) :: deliveries phase ctx (phase d.1 ctx db d.2).db rest

/-! ## The running example: transaction "tx-1", branch 1, action "debit" -/

/-- The business action context of the example. -/
def exBac : BusinessActionContext := ⟨"tx-1", 1, "debit"⟩

/-- A call context carrying the example descriptor. -/
def exCtx : Context := ⟨some exBac, Option.none⟩

/-- The fence row of the example branch in state s. -/
def exRow (s : TxLogState) : TxLog := ⟨"tx-1", "1", "debit", [], s⟩

/-- A store holding the example row in state s and a balance of 100. -/
def exStore (s : TxLogState) : Store Nat := ⟨[exRow s], 100⟩

/-- A store with no fence row and a balance of 100. -/
def exEmpty : Store Nat := ⟨[], 100⟩

/-- A callback that debits 100 and reports success. -/
def exDebit : PhaseFn Nat := fun _ tx => .returned (true, Option.none) ⟨tx.txLogs, tx.business - 100⟩

/-- A callback that panics. -/
def exPanic : PhaseFn Nat := fun _ _ => .panicked

/-- A callback that writes part of its work (60 of the balance) and then reports
failure with a nil error. -/
def exRefuse : PhaseFn Nat :=
  fun _ tx => .returned (false, Option.none) ⟨tx.txLogs, tx.business - 60⟩

/-- A callback that debits 100 and reports failure with an error. -/
def exFail : PhaseFn Nat :=
  fun _ tx => .returned (false, some (.other "insufficient funds")) ⟨tx.txLogs, tx.business - 100⟩

/-- A callback that debits 100 and returns ok = true together with an error. -/
def exOkWithError : PhaseFn Nat :=
  fun _ tx => .returned (true, some (.other "ledger unreachable")) ⟨tx.txLogs, tx.business - 100⟩

/-- An encoder for the example: "null" for a nil value, "{}" for any other. -/
def exMarshal : Marshal Nat
  | Option.none => .ok (some [110, 117, 108, 108])
  | some _ => .ok (some [123, 125])

/-- A prepare callback that holds 100 of the balance and returns the amount. -/
def exHold : PrepareFn Nat Nat :=
  fun _ tx => .returned (some 100, true, Option.none) ⟨tx.txLogs, tx.business - 100⟩

/-- A prepare callback that panics. -/
def exPreparePanic : PrepareFn Nat Nat := fun _ _ => .panicked

/-- A prepare callback that holds 100 of the balance and returns an error. -/
def exPrepareFail : PrepareFn Nat Nat :=
  fun _ tx => .returned (Option.none, false, some (.other "account frozen"))
    ⟨tx.txLogs, tx.business - 100⟩

/-- An encoder that panics, as json.Marshal does on a value whose MarshalJSON method
panics with a runtime error. -/
def exMarshalPanic : Marshal Nat := fun _ => .panicked

/-- A storage that answers the insert with a duplicate-key error, as a table with a
unique index on (xid, branch_id) does for a second row of a pair. -/
def exDuplicateFault : Faults :=
  ⟨Option.none, some .duplicateEntry, Option.none, Option.none⟩

/-- A prepare callback that inserts a Committed row for the example branch in its
working copy and succeeds. -/
def exPrepareWritesLog : PrepareFn Nat Nat :=
  fun _ tx => .returned (some 100, true, Option.none)
    ⟨tx.txLogs ++ [⟨"tx-1", "1", "debit", [], .TxLogStateCommit⟩], tx.business - 100⟩

/-- A confirm callback that deletes the rows of the tx_log table in its working copy
and succeeds. -/
def exConfirmDropsLog : PhaseFn Nat :=
  fun _ tx => .returned (true, Option.none) ⟨[], tx.business - 100⟩

/-- A storage whose update statement fails. -/
def exUpdateFault : Faults :=
  ⟨Option.none, Option.none, some (.other "lock wait timeout"), Option.none⟩

/-- The row a phase builds for the branch of a business action context: its Xid, its
BranchId in decimal, its ActionName, a payload and a state. -/
def fenceRow (bac : BusinessActionContext) (detail : Bytes) (s : TxLogState) : TxLog :=
  { Xid := bac.Xid, BranchId := FormatInt bac.BranchId, ActionName := bac.ActionName,
    LogDetail := detail, TxLogState := s }

/-- json.Marshal of encoding/json on the two Go values the example hands it: a nil
interface value is encoded as the JSON value null (the four bytes n, u, l, l), the
value struct{}{} as the two bytes of an empty object. The error is nil on both. -/
def jsonMarshal : Marshal Unit
  | Option.none => .ok (some [110, 117, 108, 108])
  | some () => .ok (some [123, 125])

/-- A prepare callback that holds 100 of the balance and succeeds with a nil result
object. -/
def exPrepareNil : PrepareFn Unit Nat :=
  fun _ tx => .returned (Option.none, true, Option.none) ⟨tx.txLogs, tx.business - 100⟩

/-- A prepare callback that writes part of its work (60 of the balance) and then
returns ok = false with a nil error. -/
def exPrepareRefuse : PrepareFn Nat Nat :=
  fun _ tx => .returned (some 100, false, Option.none) ⟨tx.txLogs, tx.business - 60⟩

/-! ## The token bucket of pkg/csweb-utils/token_bucket.go

Instants (time.Time, read on the monotonic clock) and durations (time.Duration) are
counted in nanoseconds; Num and Size are Go ints, held in Int. The sum of
`that.Num += int(...)` wraps around at 64 bits as a Go int does: `wrap64`. The elapsed
time of a call is the difference of two instants, which is what now.Sub returns up to
the largest duration (MaxInt64 nanoseconds, some 292 years). The clock reading
`time.Now()` of a call is the argument `now`. -/

/-- The largest Go int and the largest time.Duration: math.MaxInt64. -/
def MaxInt64 : Int := 9223372036854775807

/-- The value a Go int holds after an arithmetic result x: x reduced into the range
from -2^63 to 2^63 - 1 modulo 2^64. -/
def wrap64 (x : Int) : Int :=
  (x + 9223372036854775808) % 18446744073709551616 - 9223372036854775808

/-- The struct TokenBucket. -/
structure TokenBucket where
  Num : Int
  Size : Int
  Rate : Int
  UpdateTime : Int
deriving DecidableEq

/-- NewTokenBucket(size, rate), called at the instant now. -/
def NewTokenBucket (size : Int) (rate : Int) (now : Int) : TokenBucket :=
  { Num := size, Size := size, Rate := rate, UpdateTime := now }

/-- The test of Limit before it refills: that.UpdateTime.Add(that.Rate).Before(now). -/
def TokenBucket.refillDue (that : TokenBucket) (now : Int) : Bool :=
  decide (that.UpdateTime + that.Rate < now)

/-- The end of Limit, from `if that.Num <= 0`: the answer (true rejects) and the
bucket the call leaves. -/
def TokenBucket.takeToken (that : TokenBucket) : Bool × TokenBucket :=
  if that.Num ≤ 0 then (true, that)
  else (false, { Num := that.Num - 1, Size := that.Size, Rate := that.Rate,
                 UpdateTime := that.UpdateTime })

/-- The method Limit, called at the instant now: the answer and the bucket after the
call. The division of two durations truncates toward zero and panics on a zero
divisor: `none`. The sum of `that.Num += int(...)` wraps around at 64 bits. -/
def TokenBucket.Limit (that : TokenBucket) (now : Int) : Option (Bool × TokenBucket) :=
  if that.refillDue now then
    if that.Rate = 0 then Option.none
    else
      let num := wrap64 (that.Num + (now - that.UpdateTime).tdiv that.Rate)
      let num := if num > that.Size then that.Size else num
      some (TokenBucket.takeToken
        { Num := num, Size := that.Size, Rate := that.Rate, UpdateTime := now })
  else some that.takeToken

/-- Successive Limit calls on one bucket at the instants of the list: the answers in
order and the bucket after the last call; `none` when a call panics. -/
def runLimit : TokenBucket → List Int → Option (List Bool × TokenBucket)
  | b, [] => some ([], b)
  | b, now :: rest =>
    match b.Limit now with
    | Option.none => Option.none
    | some (r, b') =>
      match runLimit b' rest with
      | Option.none => Option.none
      | some (rs, b'') => some (r :: rs, b'')

/-- The duration time.Second. -/
def Second : Int := 1000000000

/-- The code codes.ResourceExhausted of grpc. -/
def ResourceExhausted : Nat := 8

/-- An error an rpc returns: a status with a code and a message, as status.Errorf
builds, or any other error. -/
inductive RpcError where
  | status (code : Nat) (msg : String)
  | other (msg : String)
deriving DecidableEq

/-- A grpc.UnaryHandler: the response (nil: `none`) and the error it returns for a
request. -/
abbrev UnaryHandler (α ρ : Type) := α → Option ρ × Option RpcError

/-- What one run of the interceptor leaves: the response and error it returns, the
limiter after the run and the number of times it ran the handler. -/
structure Intercepted (ρ : Type) where
  resp : Option ρ
  err : Option RpcError
  limiter : TokenBucket
  handled : Nat
deriving DecidableEq

/-- The limiter WithRateLimit(num) creates at the instant now, which its interceptor
closes over. -/
def WithRateLimit.limiter (num : Int) (now : Int) : TokenBucket :=
  NewTokenBucket num Second now

/-- The interceptor WithRateLimit returns, run at the instant now on the limiter in
its current state; `none` when Limit panics. -/
def WithRateLimit.interceptor {α ρ : Type} (limiter : TokenBucket) (now : Int) (req : α)
    (handler : UnaryHandler α ρ) : Option (Intercepted ρ) :=
  match limiter.Limit now with
  | Option.none => Option.none
  | some (rejected, limiter) =>
    if rejected then
      some ⟨Option.none,
        some (.status ResourceExhausted "ratelimit rejected, please retry later"),
        limiter, 0⟩
    else some ⟨(handler req).1, (handler req).2, limiter, 1⟩

/-- A handler that echoes its request. -/
def exEcho : UnaryHandler Nat Nat := fun n => (some n, Option.none)

/-! ## Shared lemmas -/

/-- The count of callback runs of a result given by its fields. -/
@[simp] theorem FenceResult.calls_mk {β : Type} (ok : Bool) (err : Option Error) (db : Store β)
    (tx : TxEnd) (seen : List Context) :
    (FenceResult.mk ok err db tx seen).calls = seen.length := rfl

/-- A delivered Confirm that reads a Committed row: the closed form of the result. -/
theorem CommitFence_of_committed {β : Type} (f : Faults) (ctx : Context)
    (bac : BusinessActionContext) (db : Store β) (confirm : PhaseFn β) (r : TxLog)
    (hctx : ctx.businessActionContext = some bac)
    (hread : First f db (FormatInt bac.BranchId) bac.Xid = .ok r)
    (hstate : r.TxLogState = .TxLogStateCommit) :
    CommitFence f ctx db confirm = commitDeferred f db db false true Option.none [] := by
  simp [CommitFence, hctx, hread, hstate]

/-- A delivered Cancel that reads a RolledBack row: the closed form of the result. -/
theorem RollbackFence_of_rolledBack {β : Type} (f : Faults) (ctx : Context)
    (bac : BusinessActionContext) (db : Store β) (cancel : PhaseFn β) (r : TxLog)
    (hctx : ctx.businessActionContext = some bac)
    (hread : First f db (FormatInt bac.BranchId) bac.Xid = .ok r)
    (hstate : r.TxLogState = .TxLogStateRollback) :
    RollbackFence f ctx db cancel = rollbackDeferred f db db false true Option.none [] := by
  simp [RollbackFence, hctx, hread, hstate]

/-- The locked read with no storage fault returns the first row of the pair. -/
theorem First_of_find {β : Type} (f : Faults) (db : Store β) (branchId xid : String)
    (r : TxLog) (hf : f.First = Option.none)
    (hfind : db.txLogs.find? (matchesKey branchId xid) = some r) :
    First f db branchId xid = .ok r := by
  simp [First, hf, hfind]

/-- The locked read with no storage fault and no row of the pair: record not found. -/
theorem First_of_find_none {β : Type} (f : Faults) (db : Store β) (branchId xid : String)
    (hf : f.First = Option.none)
    (hfind : db.txLogs.find? (matchesKey branchId xid) = Option.none) :
    First f db branchId xid = .error .ErrRecordNotFound := by
  simp [First, hf, hfind]

/-- There is one result per delivery. -/
theorem deliveries_length {β : Type}
    (phase : Faults → Context → Store β → PhaseFn β → FenceResult β) (ctx : Context)
    (db : Store β) (ds : List (Faults × PhaseFn β)) :
    (deliveries phase ctx db ds).length = ds.length := by
  induction ds generalizing db with
  | nil => simp [deliveries]
  | cons d rest ih => simp [deliveries, ih]

/-- When every delivery answers `ans` on the store db and `ans` leaves db in place,
every result of the sequence of deliveries is `ans`. -/
theorem deliveries_fixed {β : Type}
    (phase : Faults → Context → Store β → PhaseFn β → FenceResult β) (ctx : Context)
    (db : Store β) (ds : List (Faults × PhaseFn β)) (ans : FenceResult β)
    (hdb : ans.db = db) (h : ∀ d ∈ ds, phase d.1 ctx db d.2 = ans) :
    ∀ res ∈ deliveries phase ctx db ds, res = ans := by
  induction ds with
  | nil => simp [deliveries]
  | cons d rest ih =>
    have hd : phase d.1 ctx db d.2 = ans := h d (List.mem_cons_self _ _)
    have hrest : ∀ e ∈ rest, phase e.1 ctx db e.2 = ans :=
      fun e he => h e (List.mem_cons_of_mem _ he)
    intro res hres
    simp only [deliveries, hd, hdb, List.mem_cons] at hres
    rcases hres with hres | hres
    · exact hres
    · exact ih hrest res hres

/-- No first row of the pair means no row of the pair. -/
theorem any_of_find_none (l : List TxLog) (branchId xid : String)
    (h : l.find? (matchesKey branchId xid) = Option.none) :
    l.any (matchesKey branchId xid) = false := by
  rw [List.find?_eq_none] at h
  rw [List.any_eq_false]
  exact h

/-! ## The phases on a row read in state Init -/

/-- CommitFence on an Init row whose confirm callback returns: the result in closed
form. A false ok returns at once on the callback results; a true ok runs the update,
whose error replaces the one of the callback. -/
theorem CommitFence_of_init {β : Type} (f : Faults) (ctx : Context)
    (bac : BusinessActionContext) (db tx : Store β) (confirm : PhaseFn β) (r : TxLog)
    (ok : Bool) (err : Option Error)
    (hctx : ctx.businessActionContext = some bac)
    (hread : First f db (FormatInt bac.BranchId) bac.Xid = .ok r)
    (hstate : r.TxLogState = .TxLogStateInit)
    (hcall : confirm (ctx.WithValue r) db = .returned (ok, err) tx) :
    CommitFence f ctx db confirm =
      if ok = false then commitDeferred f db tx false false err [ctx.WithValue r]
      else commitDeferred f db
        (Updates f tx (FormatInt bac.BranchId) bac.Xid .TxLogStateCommit).1 false
        (if (Updates f tx (FormatInt bac.BranchId) bac.Xid .TxLogStateCommit).2.isSome
          then false else true)
        (Updates f tx (FormatInt bac.BranchId) bac.Xid .TxLogStateCommit).2 [ctx.WithValue r] := by
  cases ok <;> simp [CommitFence, hctx, hread, hstate, hcall]

/-- RollbackFence on an Init row whose cancel callback returns: the result in closed
form. A false ok returns (false, err); a true ok runs the update and then leaves the
body with ok = true whatever the update answered. -/
theorem RollbackFence_of_init {β : Type} (f : Faults) (ctx : Context)
    (bac : BusinessActionContext) (db tx : Store β) (cancel : PhaseFn β) (r : TxLog)
    (ok : Bool) (err : Option Error)
    (hctx : ctx.businessActionContext = some bac)
    (hread : First f db (FormatInt bac.BranchId) bac.Xid = .ok r)
    (hstate : r.TxLogState = .TxLogStateInit)
    (hcall : cancel (ctx.WithValue r) db = .returned (ok, err) tx) :
    RollbackFence f ctx db cancel =
      if ok = false then rollbackDeferred f db tx false false err [ctx.WithValue r]
      else rollbackDeferred f db
        (Updates f tx (FormatInt bac.BranchId) bac.Xid .TxLogStateRollback).1 false true
        (Updates f tx (FormatInt bac.BranchId) bac.Xid .TxLogStateRollback).2 [ctx.WithValue r] := by
  cases ok <;> simp [RollbackFence, hctx, hread, hstate, hcall]

/-- A confirm callback that returns ok = false with a non-nil error: CommitFence
rolls back and returns that error; the store is the one before the call. -/
theorem CommitFence_callback_failure {β : Type} (f : Faults) (ctx : Context)
    (bac : BusinessActionContext) (db tx : Store β) (confirm : PhaseFn β) (r : TxLog)
    (e : Error)
    (hctx : ctx.businessActionContext = some bac)
    (hread : First f db (FormatInt bac.BranchId) bac.Xid = .ok r)
    (hstate : r.TxLogState = .TxLogStateInit)
    (hcall : confirm (ctx.WithValue r) db = .returned (false, some e) tx) :
    CommitFence f ctx db confirm = ⟨false, some e, db, .rolledBack, [ctx.WithValue r]⟩ := by
  rw [CommitFence_of_init f ctx bac db tx confirm r false (some e) hctx hread hstate hcall]
  simp [commitDeferred]

/-- A confirm callback that returns ok = false with a nil error, Commit going
through: CommitFence commits the working copy of the callback and returns (true, nil). -/
theorem CommitFence_callback_refusal {β : Type} (f : Faults) (ctx : Context)
    (bac : BusinessActionContext) (db tx : Store β) (confirm : PhaseFn β) (r : TxLog)
    (hctx : ctx.businessActionContext = some bac)
    (hread : First f db (FormatInt bac.BranchId) bac.Xid = .ok r)
    (hstate : r.TxLogState = .TxLogStateInit)
    (hcall : confirm (ctx.WithValue r) db = .returned (false, Option.none) tx)
    (hcommit : f.Commit = Option.none) :
    CommitFence f ctx db confirm = ⟨true, Option.none, tx, .committed, [ctx.WithValue r]⟩ := by
  rw [CommitFence_of_init f ctx bac db tx confirm r false Option.none hctx hread hstate hcall]
  simp [commitDeferred, hcommit]

/-- A cancel callback that returns ok = false: RollbackFence rolls back and returns
(false, err) with the error of the callback, nil or not. -/
theorem RollbackFence_callback_failure {β : Type} (f : Faults) (ctx : Context)
    (bac : BusinessActionContext) (db tx : Store β) (cancel : PhaseFn β) (r : TxLog)
    (err : Option Error)
    (hctx : ctx.businessActionContext = some bac)
    (hread : First f db (FormatInt bac.BranchId) bac.Xid = .ok r)
    (hstate : r.TxLogState = .TxLogStateInit)
    (hcall : cancel (ctx.WithValue r) db = .returned (false, err) tx) :
    RollbackFence f ctx db cancel = ⟨false, err, db, .rolledBack, [ctx.WithValue r]⟩ := by
  rw [RollbackFence_of_init f ctx bac db tx cancel r false err hctx hread hstate hcall]
  simp [rollbackDeferred]

/-- A cancel callback that returns ok = true, an update that fails with e and a
Commit that goes through: RollbackFence commits the working copy of the callback,
in which the row is not updated, and returns ok = true next to e. -/
theorem RollbackFence_update_failure {β : Type} (f : Faults) (ctx : Context)
    (bac : BusinessActionContext) (db tx : Store β) (cancel : PhaseFn β) (r : TxLog)
    (err : Option Error) (e : Error)
    (hctx : ctx.businessActionContext = some bac)
    (hread : First f db (FormatInt bac.BranchId) bac.Xid = .ok r)
    (hstate : r.TxLogState = .TxLogStateInit)
    (hcall : cancel (ctx.WithValue r) db = .returned (true, err) tx)
    (hupdate : f.Updates = some e) (hcommit : f.Commit = Option.none) :
    RollbackFence f ctx db cancel = ⟨true, some e, tx, .committed, [ctx.WithValue r]⟩ := by
  rw [RollbackFence_of_init f ctx bac db tx cancel r true err hctx hread hstate hcall]
  simp [rollbackDeferred, Updates, hupdate, hcommit]

/-- A confirm callback that returns ok = true, an update that fails with e:
CommitFence rolls back and returns (false, e). -/
theorem CommitFence_update_failure {β : Type} (f : Faults) (ctx : Context)
    (bac : BusinessActionContext) (db tx : Store β) (confirm : PhaseFn β) (r : TxLog)
    (err : Option Error) (e : Error)
    (hctx : ctx.businessActionContext = some bac)
    (hread : First f db (FormatInt bac.BranchId) bac.Xid = .ok r)
    (hstate : r.TxLogState = .TxLogStateInit)
    (hcall : confirm (ctx.WithValue r) db = .returned (true, err) tx)
    (hupdate : f.Updates = some e) :
    CommitFence f ctx db confirm = ⟨false, some e, db, .rolledBack, [ctx.WithValue r]⟩ := by
  rw [CommitFence_of_init f ctx bac db tx confirm r true err hctx hread hstate hcall]
  simp [commitDeferred, Updates, hupdate]

/-- A callback that returns ok = true, with whatever error, an update and a Commit
that go through: both phases commit the updated working copy and return (true, nil). -/
theorem phase_callback_ok {β : Type} (f : Faults) (ctx : Context)
    (bac : BusinessActionContext) (db tx : Store β) (cb : PhaseFn β) (r : TxLog)
    (err : Option Error)
    (hctx : ctx.businessActionContext = some bac)
    (hread : First f db (FormatInt bac.BranchId) bac.Xid = .ok r)
    (hstate : r.TxLogState = .TxLogStateInit)
    (hcall : cb (ctx.WithValue r) db = .returned (true, err) tx)
    (hupdate : f.Updates = Option.none) (hcommit : f.Commit = Option.none) :
    CommitFence f ctx db cb = ⟨true, Option.none,
      (Updates f tx (FormatInt bac.BranchId) bac.Xid .TxLogStateCommit).1, .committed, [ctx.WithValue r]⟩ ∧
    RollbackFence f ctx db cb = ⟨true, Option.none,
      (Updates f tx (FormatInt bac.BranchId) bac.Xid .TxLogStateRollback).1, .committed, [ctx.WithValue r]⟩ := by
  rw [CommitFence_of_init f ctx bac db tx cb r true err hctx hread hstate hcall,
    RollbackFence_of_init f ctx bac db tx cb r true err hctx hread hstate hcall]
  simp [commitDeferred, rollbackDeferred, Updates, hupdate, hcommit]

/-! ## The claims -/

/-- C1: idempotent redelivery. In a store whose row for the call's (Xid, BranchId) is
Committed, a CommitFence whose locked read and Commit go through returns ok = true
and a nil error, runs the confirm callback zero times and leaves the store as it
was; the same holds for RollbackFence on a RolledBack row. Hence every delivery of a
sequence of redeliveries, whatever its callback, succeeds with no callback run. -/
theorem idempotent_redelivery {β : Type} (ctx : Context) (bac : BusinessActionContext)
    (db : Store β) (r : TxLog) (ds : List (Faults × PhaseFn β))
    (hctx : ctx.businessActionContext = some bac)
    (hfind : db.txLogs.find? (matchesKey (FormatInt bac.BranchId) bac.Xid) = some r)
    (hds : ∀ d ∈ ds, d.1.First = Option.none ∧ d.1.Commit = Option.none) :
    (r.TxLogState = .TxLogStateCommit →
      (∀ d ∈ ds, (CommitFence d.1 ctx db d.2).ok = true ∧
        (CommitFence d.1 ctx db d.2).err = Option.none ∧
        (CommitFence d.1 ctx db d.2).calls = 0 ∧ (CommitFence d.1 ctx db d.2).db = db) ∧
      (deliveries CommitFence ctx db ds).length = ds.length ∧
      ∀ res ∈ deliveries CommitFence ctx db ds,
        res.ok = true ∧ res.err = Option.none ∧ res.calls = 0 ∧ res.db = db) ∧
    (r.TxLogState = .TxLogStateRollback →
      (∀ d ∈ ds, (RollbackFence d.1 ctx db d.2).ok = true ∧
        (RollbackFence d.1 ctx db d.2).err = Option.none ∧
        (RollbackFence d.1 ctx db d.2).calls = 0 ∧ (RollbackFence d.1 ctx db d.2).db = db) ∧
      (deliveries RollbackFence ctx db ds).length = ds.length ∧
      ∀ res ∈ deliveries RollbackFence ctx db ds,
        res.ok = true ∧ res.err = Option.none ∧ res.calls = 0 ∧ res.db = db) := by
  have hC : r.TxLogState = .TxLogStateCommit → ∀ d ∈ ds,
      CommitFence d.1 ctx db d.2 = ⟨true, Option.none, db, .committed, []⟩ := by
    intro hs d hd
    rw [CommitFence_of_committed d.1 ctx bac db d.2 r hctx
      (First_of_find _ _ _ _ _ (hds d hd).1 hfind) hs]
    simp [commitDeferred, (hds d hd).2]
  have hR : r.TxLogState = .TxLogStateRollback → ∀ d ∈ ds,
      RollbackFence d.1 ctx db d.2 = ⟨true, Option.none, db, .committed, []⟩ := by
    intro hs d hd
    rw [RollbackFence_of_rolledBack d.1 ctx bac db d.2 r hctx
      (First_of_find _ _ _ _ _ (hds d hd).1 hfind) hs]
    simp [rollbackDeferred, (hds d hd).2]
  refine ⟨fun hs => ⟨?_, deliveries_length _ _ _ _, ?_⟩, fun hs => ⟨?_, deliveries_length _ _ _ _, ?_⟩⟩
  · intro d hd
    simp [hC hs d hd]
  · intro res hres
    have := deliveries_fixed CommitFence ctx db ds ⟨true, Option.none, db, .committed, []⟩ rfl
      (hC hs) res hres
    simp [this]
  · intro d hd
    simp [hR hs d hd]
  · intro res hres
    have := deliveries_fixed RollbackFence ctx db ds ⟨true, Option.none, db, .committed, []⟩ rfl
      (hR hs) res hres
    simp [this]

/-- Witness of C1: two redeliveries to the example branch, with a panicking and a
debiting callback. -/
theorem idempotent_redelivery_witness :
    (∀ res ∈ deliveries CommitFence exCtx (exStore .TxLogStateCommit)
        [(Faults.none, exPanic), (Faults.none, exDebit)],
      res.ok = true ∧ res.err = Option.none ∧ res.calls = 0 ∧
        res.db = exStore .TxLogStateCommit) ∧
    (∀ res ∈ deliveries RollbackFence exCtx (exStore .TxLogStateRollback)
        [(Faults.none, exPanic), (Faults.none, exDebit)],
      res.ok = true ∧ res.err = Option.none ∧ res.calls = 0 ∧
        res.db = exStore .TxLogStateRollback) :=
  ⟨((idempotent_redelivery exCtx exBac (exStore .TxLogStateCommit) (exRow .TxLogStateCommit)
      [(Faults.none, exPanic), (Faults.none, exDebit)] rfl (by decide)
      (by simp [Faults.none])).1 rfl).2.2,
   ((idempotent_redelivery exCtx exBac (exStore .TxLogStateRollback)
      (exRow .TxLogStateRollback)
      [(Faults.none, exPanic), (Faults.none, exDebit)] rfl (by decide)
      (by simp [Faults.none])).2 rfl).2.2⟩

/-- C2: null rollback. In a store with no row for the call's (Xid, BranchId), a
RollbackFence whose locked read, insert and Commit go through appends exactly one
row carrying that Xid, that BranchId, the ActionName of the context, state
RolledBack and an empty LogDetail, commits, returns ok = true with a nil error and
runs the cancel callback zero times. -/
theorem null_rollback {β : Type} (f : Faults) (ctx : Context) (bac : BusinessActionContext)
    (db : Store β) (cancel : PhaseFn β)
    (hctx : ctx.businessActionContext = some bac)
    (hnone : db.txLogs.find? (matchesKey (FormatInt bac.BranchId) bac.Xid) = Option.none)
    (hfirst : f.First = Option.none) (hcreate : f.Create = Option.none)
    (hcommit : f.Commit = Option.none) :
    (RollbackFence f ctx db cancel).ok = true ∧
    (RollbackFence f ctx db cancel).err = Option.none ∧
    (RollbackFence f ctx db cancel).calls = 0 ∧
    (RollbackFence f ctx db cancel).tx = .committed ∧
    (RollbackFence f ctx db cancel).db =
      ⟨db.txLogs ++ [⟨bac.Xid, FormatInt bac.BranchId, bac.ActionName, [],
        .TxLogStateRollback⟩], db.business⟩ := by
  have hread := First_of_find_none f db _ _ hfirst hnone
  have hany := any_of_find_none _ _ _ hnone
  simp [RollbackFence, hctx, hread, Create, hcreate, hany, rollbackDeferred, hcommit]

/-- Witness of C2: a Cancel for the example branch on a store with no fence row. -/
theorem null_rollback_witness :
    (RollbackFence Faults.none exCtx exEmpty exPanic).ok = true ∧
    (RollbackFence Faults.none exCtx exEmpty exPanic).err = Option.none ∧
    (RollbackFence Faults.none exCtx exEmpty exPanic).calls = 0 ∧
    (RollbackFence Faults.none exCtx exEmpty exPanic).tx = .committed ∧
    (RollbackFence Faults.none exCtx exEmpty exPanic).db =
      ⟨[] ++ [⟨"tx-1", FormatInt 1, "debit", [], .TxLogStateRollback⟩], 100⟩ :=
  null_rollback Faults.none exCtx exBac exEmpty exPanic rfl rfl rfl rfl rfl

/-- C3, the claim fails: on the store that holds the RolledBack row of the example
branch, with a storage without faults, PrepareFence runs a plain insert: it returns
ok = true with a nil error, commits, and the store holds two rows of the pair. And on
a storage that refuses the insert, an encoder that panics after the callback
returned ok = true makes PrepareFence return ok = true next to its error. -/
theorem out_of_order_prepare_not_fenced :
    (PrepareFence exMarshal Faults.none exCtx (exStore .TxLogStateRollback) exHold).ok = true ∧
    (PrepareFence exMarshal Faults.none exCtx (exStore .TxLogStateRollback) exHold).err
      = Option.none ∧
    (PrepareFence exMarshal Faults.none exCtx (exStore .TxLogStateRollback) exHold).tx
      = .committed ∧
    (PrepareFence exMarshal Faults.none exCtx (exStore .TxLogStateRollback) exHold).db
      = ⟨[exRow .TxLogStateRollback, ⟨"tx-1", "1", "debit", [123, 125], .TxLogStateInit⟩], 0⟩ ∧
    ((PrepareFence exMarshal Faults.none exCtx (exStore .TxLogStateRollback) exHold).db.txLogs.filter
      (matchesKey "1" "tx-1")).length = 2 ∧
    (PrepareFence exMarshalPanic exDuplicateFault exCtx (exStore .TxLogStateRollback) exHold).ok
      = true ∧
    (PrepareFence exMarshalPanic exDuplicateFault exCtx (exStore .TxLogStateRollback) exHold).err
      = some .prepareFailed := by
  decide

/-- C3, amended: an out-of-order Prepare is fenced when the storage refuses the second
row. In a store that holds a RolledBack row r for the call's (Xid, BranchId), a
PrepareFence whose insert the storage answers with an error returns a non-nil error,
its transaction is rolled back and the store is as before: the row read for the pair
is still r in state RolledBack and the rows of the pair are the ones there were. ok
is false whenever the encoder does not panic. -/
theorem out_of_order_prepare_fenced {ω β : Type} (marshal : Marshal ω) (f : Faults)
    (ctx : Context) (bac : BusinessActionContext) (db : Store β) (prepare : PrepareFn ω β)
    (r : TxLog) (e : Error)
    (hctx : ctx.businessActionContext = some bac)
    (hfind : db.txLogs.find? (matchesKey (FormatInt bac.BranchId) bac.Xid) = some r)
    (hstate : r.TxLogState = .TxLogStateRollback)
    (hrefuse : f.Create = some e) :
    (PrepareFence marshal f ctx db prepare).err ≠ Option.none ∧
    (PrepareFence marshal f ctx db prepare).tx = .rolledBack ∧
    (PrepareFence marshal f ctx db prepare).db = db ∧
    (∃ r', (PrepareFence marshal f ctx db prepare).db.txLogs.find?
        (matchesKey (FormatInt bac.BranchId) bac.Xid) = some r' ∧ r' = r ∧
        r'.TxLogState = .TxLogStateRollback) ∧
    (PrepareFence marshal f ctx db prepare).db.txLogs.filter
        (matchesKey (FormatInt bac.BranchId) bac.Xid) =
      db.txLogs.filter (matchesKey (FormatInt bac.BranchId) bac.Xid) ∧
    ((∀ obj, marshal obj ≠ .panicked) →
      (PrepareFence marshal f ctx db prepare).ok = false) := by
  have key : (PrepareFence marshal f ctx db prepare).err ≠ Option.none ∧
      (PrepareFence marshal f ctx db prepare).tx = .rolledBack ∧
      (PrepareFence marshal f ctx db prepare).db = db ∧
      ((∀ obj, marshal obj ≠ .panicked) →
        (PrepareFence marshal f ctx db prepare).ok = false) := by
    simp only [PrepareFence, hctx]
    cases hp : prepare ctx db with
    | panicked => simp [prepareDeferred]
    | returned out tx =>
      obtain ⟨logDetail, ok, err⟩ := out
      cases err with
      | some e => simp [prepareDeferred]
      | none =>
        cases hm : marshal logDetail with
        | panicked =>
          refine ⟨by simp [hm, prepareDeferred], by simp [hm, prepareDeferred],
            by simp [hm, prepareDeferred], fun hno => absurd hm (hno logDetail)⟩
        | error e => simp [hm, prepareDeferred]
        | ok detail => simp [hm, Create, hrefuse, prepareDeferred]
  obtain ⟨h1, h2, h3, h4⟩ := key
  refine ⟨h1, h2, h3, ⟨r, ?_, rfl, hstate⟩, ?_, h4⟩
  · rw [h3]; exact hfind
  · rw [h3]

/-- C4: terminal states exclude each other and absorb. When the locked read returns
a RolledBack row, CommitFence returns ok = false with a non-nil error; when it returns
a Committed row, RollbackFence returns ok = false with a non-nil error; and whenever
it returns a row in a terminal state, neither phase runs its callback or changes the
store, so the row keeps its state. -/
theorem terminal_states_absorbing {β : Type} (f : Faults) (ctx : Context)
    (bac : BusinessActionContext) (db : Store β) (cb : PhaseFn β) (r : TxLog)
    (hctx : ctx.businessActionContext = some bac)
    (hread : First f db (FormatInt bac.BranchId) bac.Xid = .ok r) :
    (r.TxLogState = .TxLogStateRollback →
      (CommitFence f ctx db cb).ok = false ∧ (CommitFence f ctx db cb).err ≠ Option.none ∧
      (CommitFence f ctx db cb).tx = .rolledBack) ∧
    (r.TxLogState = .TxLogStateCommit →
      (RollbackFence f ctx db cb).ok = false ∧ (RollbackFence f ctx db cb).err ≠ Option.none ∧
      (RollbackFence f ctx db cb).tx = .rolledBack) ∧
    (r.TxLogState ≠ .TxLogStateInit →
      (CommitFence f ctx db cb).calls = 0 ∧ (CommitFence f ctx db cb).db = db ∧
      (RollbackFence f ctx db cb).calls = 0 ∧ (RollbackFence f ctx db cb).db = db ∧
      First f (CommitFence f ctx db cb).db (FormatInt bac.BranchId) bac.Xid = .ok r ∧
      First f (RollbackFence f ctx db cb).db (FormatInt bac.BranchId) bac.Xid = .ok r) := by
  refine ⟨fun hs => ?_, fun hs => ?_, fun hs => ?_⟩
  · simp [CommitFence, hctx, hread, hs, commitDeferred]
  · simp [RollbackFence, hctx, hread, hs, rollbackDeferred]
  · have hC : (CommitFence f ctx db cb).calls = 0 ∧ (CommitFence f ctx db cb).db = db := by
      cases hst : r.TxLogState with
      | TxLogStateInit => exact absurd hst hs
      | TxLogStateCommit =>
        cases hc : f.Commit <;> simp [CommitFence, hctx, hread, hst, commitDeferred, hc]
      | TxLogStateRollback => simp [CommitFence, hctx, hread, hst, commitDeferred]
    have hR : (RollbackFence f ctx db cb).calls = 0 ∧ (RollbackFence f ctx db cb).db = db := by
      cases hst : r.TxLogState with
      | TxLogStateInit => exact absurd hst hs
      | TxLogStateCommit => simp [RollbackFence, hctx, hread, hst, rollbackDeferred]
      | TxLogStateRollback =>
        cases hc : f.Commit <;> simp [RollbackFence, hctx, hread, hst, rollbackDeferred, hc]
    refine ⟨hC.1, hC.2, hR.1, hR.2, ?_, ?_⟩
    · rw [hC.2]; exact hread
    · rw [hR.2]; exact hread

/-- Witness of C3 as amended: a Prepare for the example branch after its null
rollback, on a storage that answers the insert with a duplicate-key error. -/
theorem out_of_order_prepare_fenced_witness :
    (PrepareFence exMarshal exDuplicateFault exCtx (exStore .TxLogStateRollback) exHold).err
      ≠ Option.none ∧
    (PrepareFence exMarshal exDuplicateFault exCtx (exStore .TxLogStateRollback) exHold).tx
      = .rolledBack ∧
    (PrepareFence exMarshal exDuplicateFault exCtx (exStore .TxLogStateRollback) exHold).db
      = exStore .TxLogStateRollback ∧
    (PrepareFence exMarshal exDuplicateFault exCtx (exStore .TxLogStateRollback) exHold).ok
      = false :=
  have h := out_of_order_prepare_fenced exMarshal exDuplicateFault exCtx exBac
    (exStore .TxLogStateRollback) exHold (exRow .TxLogStateRollback) .duplicateEntry
    rfl (by decide) rfl rfl
  ⟨h.1, h.2.1, h.2.2.1, h.2.2.2.2.2 (by intro obj; cases obj <;> simp [exMarshal])⟩

/-- Witness of C4: a Confirm on the rolled-back example branch and a Cancel on the
committed one, each with a callback that would debit. -/
theorem terminal_states_absorbing_witness :
    ((CommitFence Faults.none exCtx (exStore .TxLogStateRollback) exDebit).ok = false ∧
      (CommitFence Faults.none exCtx (exStore .TxLogStateRollback) exDebit).err ≠ Option.none ∧
      (CommitFence Faults.none exCtx (exStore .TxLogStateRollback) exDebit).tx = .rolledBack) ∧
    ((RollbackFence Faults.none exCtx (exStore .TxLogStateCommit) exDebit).ok = false ∧
      (RollbackFence Faults.none exCtx (exStore .TxLogStateCommit) exDebit).err ≠ Option.none ∧
      (RollbackFence Faults.none exCtx (exStore .TxLogStateCommit) exDebit).tx = .rolledBack) ∧
    (CommitFence Faults.none exCtx (exStore .TxLogStateRollback) exDebit).db
      = exStore .TxLogStateRollback ∧
    (RollbackFence Faults.none exCtx (exStore .TxLogStateCommit) exDebit).db
      = exStore .TxLogStateCommit :=
  have hR := terminal_states_absorbing Faults.none exCtx exBac (exStore .TxLogStateRollback)
    exDebit (exRow .TxLogStateRollback) rfl (First_of_find _ _ _ _ _ rfl (by decide))
  have hC := terminal_states_absorbing Faults.none exCtx exBac (exStore .TxLogStateCommit)
    exDebit (exRow .TxLogStateCommit) rfl (First_of_find _ _ _ _ _ rfl (by decide))
  ⟨hR.1 rfl, hC.2.1 rfl, (hR.2.2 (by decide)).2.1, (hC.2.2 (by decide)).2.2.2.1⟩

/-- C5: Confirm without a record. In a store with no row for the call's
(Xid, BranchId), a CommitFence whose locked read goes through returns ok = false with
gorm.ErrRecordNotFound, runs the confirm callback zero times, rolls back and leaves
the store as it was: no row is created. -/
theorem confirm_without_record {β : Type} (f : Faults) (ctx : Context)
    (bac : BusinessActionContext) (db : Store β) (confirm : PhaseFn β)
    (hctx : ctx.businessActionContext = some bac)
    (hnone : db.txLogs.find? (matchesKey (FormatInt bac.BranchId) bac.Xid) = Option.none)
    (hfirst : f.First = Option.none) :
    (CommitFence f ctx db confirm).ok = false ∧
    (CommitFence f ctx db confirm).err = some .ErrRecordNotFound ∧
    (CommitFence f ctx db confirm).calls = 0 ∧
    (CommitFence f ctx db confirm).tx = .rolledBack ∧
    (CommitFence f ctx db confirm).db = db := by
  have hread := First_of_find_none f db _ _ hfirst hnone
  simp [CommitFence, hctx, hread, commitDeferred]

/-- Witness of C5: a Confirm for the example branch on a store with no fence row. -/
theorem confirm_without_record_witness :
    (CommitFence Faults.none exCtx exEmpty exDebit).ok = false ∧
    (CommitFence Faults.none exCtx exEmpty exDebit).err = some .ErrRecordNotFound ∧
    (CommitFence Faults.none exCtx exEmpty exDebit).calls = 0 ∧
    (CommitFence Faults.none exCtx exEmpty exDebit).tx = .rolledBack ∧
    (CommitFence Faults.none exCtx exEmpty exDebit).db = exEmpty :=
  confirm_without_record Faults.none exCtx exBac exEmpty exDebit rfl rfl rfl

/-- C6, at the failing input: on the example row in state Init, with a confirm
callback that writes part of its work and returns ok = false with a nil error and a
storage without faults, CommitFence commits the transaction and returns ok = true
with a nil error; the row is still Init and the partial write is durable. -/
theorem confirm_refusal_is_committed :
    (CommitFence Faults.none exCtx (exStore .TxLogStateInit) exRefuse).ok = true ∧
    (CommitFence Faults.none exCtx (exStore .TxLogStateInit) exRefuse).err = Option.none ∧
    (CommitFence Faults.none exCtx (exStore .TxLogStateInit) exRefuse).tx = .committed ∧
    (CommitFence Faults.none exCtx (exStore .TxLogStateInit) exRefuse).calls = 1 ∧
    (CommitFence Faults.none exCtx (exStore .TxLogStateInit) exRefuse).db
      = ⟨[exRow .TxLogStateInit], 40⟩ := by
  decide

/-- C7, at the failing input: on the example row in state Init, with a cancel
callback that succeeds and a storage whose update of the row fails, RollbackFence
commits the transaction and returns ok = true next to the error of the update; the
row the committed store holds is still Init. -/
theorem cancel_update_failure_is_committed :
    (RollbackFence exUpdateFault exCtx (exStore .TxLogStateInit) exDebit).ok = true ∧
    (RollbackFence exUpdateFault exCtx (exStore .TxLogStateInit) exDebit).err
      = some (.other "lock wait timeout") ∧
    (RollbackFence exUpdateFault exCtx (exStore .TxLogStateInit) exDebit).tx = .committed ∧
    (RollbackFence exUpdateFault exCtx (exStore .TxLogStateInit) exDebit).db
      = ⟨[exRow .TxLogStateInit], 0⟩ := by
  decide

/-- C8, at the failing input: on the example row in state Init, with a callback that
returns ok = true together with a non-nil error and a storage without faults,
CommitFence and RollbackFence both commit and return ok = true with a nil error: the
error of the callback is overwritten by the nil error of the update. -/
theorem callback_error_with_ok_is_dropped :
    (CommitFence Faults.none exCtx (exStore .TxLogStateInit) exOkWithError).ok = true ∧
    (CommitFence Faults.none exCtx (exStore .TxLogStateInit) exOkWithError).err = Option.none ∧
    (CommitFence Faults.none exCtx (exStore .TxLogStateInit) exOkWithError).tx = .committed ∧
    (CommitFence Faults.none exCtx (exStore .TxLogStateInit) exOkWithError).db
      = ⟨[exRow .TxLogStateCommit], 0⟩ ∧
    (RollbackFence Faults.none exCtx (exStore .TxLogStateInit) exOkWithError).ok = true ∧
    (RollbackFence Faults.none exCtx (exStore .TxLogStateInit) exOkWithError).err
      = Option.none ∧
    (RollbackFence Faults.none exCtx (exStore .TxLogStateInit) exOkWithError).tx = .committed ∧
    (RollbackFence Faults.none exCtx (exStore .TxLogStateInit) exOkWithError).db
      = ⟨[exRow .TxLogStateRollback], 0⟩ := by
  decide

/-- C9: panic conversion. When the business callback panics, each phase still
returns: PrepareFence, and CommitFence and RollbackFence on a row read in state Init
(the rows on which they run the callback), return ok = false with a non-nil error
(the one the deferred closure sets after recover), the transaction is rolled back and
not committed, and the store is as it was before the call. -/
theorem panic_conversion {ω β : Type} (marshal : Marshal ω) (f : Faults) (ctx : Context)
    (bac : BusinessActionContext) (db : Store β) (prepare : PrepareFn ω β)
    (cb : PhaseFn β) (r : TxLog)
    (hctx : ctx.businessActionContext = some bac) :
    (prepare ctx db = .panicked →
      (PrepareFence marshal f ctx db prepare).ok = false ∧
      (PrepareFence marshal f ctx db prepare).err = some .prepareFailed ∧
      (PrepareFence marshal f ctx db prepare).tx = .rolledBack ∧
      (PrepareFence marshal f ctx db prepare).db = db) ∧
    (First f db (FormatInt bac.BranchId) bac.Xid = .ok r →
      r.TxLogState = .TxLogStateInit → cb (ctx.WithValue r) db = .panicked →
      ((CommitFence f ctx db cb).ok = false ∧
        (CommitFence f ctx db cb).err = some .commitFailed ∧
        (CommitFence f ctx db cb).tx = .rolledBack ∧
        (CommitFence f ctx db cb).db = db) ∧
      ((RollbackFence f ctx db cb).ok = false ∧
        (RollbackFence f ctx db cb).err = some .rollbackFailed ∧
        (RollbackFence f ctx db cb).tx = .rolledBack ∧
        (RollbackFence f ctx db cb).db = db)) := by
  refine ⟨fun hp => ?_, fun hread hs hp => ⟨?_, ?_⟩⟩
  · simp [PrepareFence, hctx, hp, prepareDeferred]
  · simp [CommitFence, hctx, hread, hs, hp, commitDeferred]
  · simp [RollbackFence, hctx, hread, hs, hp, rollbackDeferred]

/-- Witness of C9: the three phases of the example branch with panicking callbacks. -/
theorem panic_conversion_witness :
    ((PrepareFence exMarshal Faults.none exCtx exEmpty exPreparePanic).ok = false ∧
      (PrepareFence exMarshal Faults.none exCtx exEmpty exPreparePanic).err
        = some .prepareFailed ∧
      (PrepareFence exMarshal Faults.none exCtx exEmpty exPreparePanic).tx = .rolledBack ∧
      (PrepareFence exMarshal Faults.none exCtx exEmpty exPreparePanic).db = exEmpty) ∧
    ((CommitFence Faults.none exCtx (exStore .TxLogStateInit) exPanic).ok = false ∧
      (CommitFence Faults.none exCtx (exStore .TxLogStateInit) exPanic).err
        = some .commitFailed ∧
      (CommitFence Faults.none exCtx (exStore .TxLogStateInit) exPanic).tx = .rolledBack ∧
      (CommitFence Faults.none exCtx (exStore .TxLogStateInit) exPanic).db
        = exStore .TxLogStateInit) ∧
    ((RollbackFence Faults.none exCtx (exStore .TxLogStateInit) exPanic).ok = false ∧
      (RollbackFence Faults.none exCtx (exStore .TxLogStateInit) exPanic).err
        = some .rollbackFailed ∧
      (RollbackFence Faults.none exCtx (exStore .TxLogStateInit) exPanic).tx = .rolledBack ∧
      (RollbackFence Faults.none exCtx (exStore .TxLogStateInit) exPanic).db
        = exStore .TxLogStateInit) :=
  have hP := (panic_conversion exMarshal Faults.none exCtx exBac exEmpty exPreparePanic
    exPanic (exRow .TxLogStateInit) rfl).1 rfl
  have hI := (panic_conversion exMarshal Faults.none exCtx exBac (exStore .TxLogStateInit)
    exPreparePanic exPanic (exRow .TxLogStateInit) rfl).2
    (First_of_find _ _ _ _ _ rfl (by decide)) rfl rfl
  ⟨hP, hI.1, hI.2⟩

/-- The ends of PrepareFence on a context that carries a business action context.
Either its transaction is committed, it returns (true, nil), and the durable store is
the working copy the callback left with exactly one row appended: the row of the
branch in state Init with the encoded result. Or its transaction is not committed
and the durable store is the one before the call; then it returns ok = false, unless
the encoder panicked after the callback returned ok = true. -/
theorem PrepareFence_outcomes {ω β : Type} (marshal : Marshal ω) (f : Faults) (ctx : Context)
    (bac : BusinessActionContext) (db : Store β) (prepare : PrepareFn ω β)
    (hctx : ctx.businessActionContext = some bac) :
    ((PrepareFence marshal f ctx db prepare).tx = .committed ∧
      (PrepareFence marshal f ctx db prepare).ok = true ∧
      (PrepareFence marshal f ctx db prepare).err = Option.none ∧
      ∃ obj flag tx detail, prepare ctx db = .returned (obj, flag, Option.none) tx ∧
        marshal obj = .ok detail ∧
        (PrepareFence marshal f ctx db prepare).db =
          ⟨tx.txLogs ++ [⟨bac.Xid, FormatInt bac.BranchId, bac.ActionName, detail.getD [],
            .TxLogStateInit⟩], tx.business⟩) ∨
    ((PrepareFence marshal f ctx db prepare).tx ≠ .committed ∧
      (PrepareFence marshal f ctx db prepare).db = db ∧
      ((PrepareFence marshal f ctx db prepare).ok = false ∨
        ∃ obj tx, prepare ctx db = .returned (obj, true, Option.none) tx ∧
          marshal obj = .panicked ∧
          (PrepareFence marshal f ctx db prepare).err = some .prepareFailed)) := by
  simp only [PrepareFence, hctx]
  cases hp : prepare ctx db with
  | panicked => right; simp [prepareDeferred]
  | returned out tx =>
    obtain ⟨logDetail, flag, err⟩ := out
    cases err with
    | some e => right; simp [prepareDeferred]
    | none =>
      cases hm : marshal logDetail with
      | panicked =>
        right
        cases flag
        · simp [hm, prepareDeferred]
        · refine ⟨by simp [hm, prepareDeferred], by simp [hm, prepareDeferred],
            Or.inr ⟨logDetail, tx, rfl, hm, by simp [hm, prepareDeferred]⟩⟩
      | error e => right; simp [hm, prepareDeferred]
      | ok detail =>
        cases hc : f.Create with
        | some e => right; simp [hm, Create, hc, prepareDeferred]
        | none =>
          cases hcm : f.Commit with
          | some e => right; simp [hm, Create, hc, hcm, prepareDeferred]
          | none =>
            left
            refine ⟨by simp [hm, Create, hc, hcm, prepareDeferred],
              by simp [hm, Create, hc, hcm, prepareDeferred],
              by simp [hm, Create, hc, hcm, prepareDeferred],
              logDetail, flag, tx, detail, rfl, hm, ?_⟩
            simp [hm, Create, hc, hcm, prepareDeferred]

/-- C10, at the failing input: on a store with no fence row and a storage without
faults, with a prepare callback that returns ok = true and a nil error and an encoder
that panics on its result, PrepareFence rolls back, so that nothing is committed, and
returns ok = true next to the error "prepare failed". -/
theorem prepare_panic_after_ok_returns_ok :
    (PrepareFence exMarshalPanic Faults.none exCtx exEmpty exHold).ok = true ∧
    (PrepareFence exMarshalPanic Faults.none exCtx exEmpty exHold).err = some .prepareFailed ∧
    (PrepareFence exMarshalPanic Faults.none exCtx exEmpty exHold).tx = .rolledBack ∧
    (PrepareFence exMarshalPanic Faults.none exCtx exEmpty exHold).db = exEmpty := by
  decide

/-! ## Lemmas on the token bucket -/

/-- A result inside the range of a Go int is held as it is. -/
theorem wrap64_of_fits (x : Int) (hlo : -9223372036854775808 ≤ x) (hhi : x ≤ MaxInt64) :
    wrap64 x = x := by
  unfold MaxInt64 at hhi
  unfold wrap64
  omega

/-- A result not below the smallest Go int is held as that or a smaller value of the
range. -/
theorem wrap64_le (x : Int) (hlo : -9223372036854775808 ≤ x) :
    wrap64 x ≤ x ∧ -9223372036854775808 ≤ wrap64 x ∧ wrap64 x ≤ MaxInt64 := by
  unfold MaxInt64
  unfold wrap64
  omega

/-- When a refill is due on a bucket with a positive Rate, the truncated quotient of
Limit is the floor of elapsed / Rate, and it is at least one. -/
theorem refill_quotient (b : TokenBucket) (now : Int) (hR : 0 < b.Rate)
    (hdue : b.UpdateTime + b.Rate < now) :
    (now - b.UpdateTime).tdiv b.Rate = (now - b.UpdateTime) / b.Rate ∧
    1 ≤ (now - b.UpdateTime) / b.Rate := by
  refine ⟨Int.tdiv_eq_ediv (by omega) (by omega), ?_⟩
  rw [Int.le_ediv_iff_mul_le hR]
  omega

/-- Limit with no refill due: the bucket only gives a token. -/
theorem Limit_not_due (b : TokenBucket) (now : Int) (hdue : ¬ b.UpdateTime + b.Rate < now) :
    b.Limit now = some b.takeToken := by
  simp [TokenBucket.Limit, TokenBucket.refillDue, hdue]

/-- Limit with a refill due and a positive Rate: the floor of elapsed / Rate is added
in 64 bits, the count is clamped to Size, UpdateTime becomes now, then the bucket
gives a token. -/
theorem Limit_due (b : TokenBucket) (now : Int) (hR : 0 < b.Rate)
    (hdue : b.UpdateTime + b.Rate < now) :
    b.Limit now = some (TokenBucket.takeToken
      { Num := if wrap64 (b.Num + (now - b.UpdateTime) / b.Rate) > b.Size then b.Size
               else wrap64 (b.Num + (now - b.UpdateTime) / b.Rate),
        Size := b.Size, Rate := b.Rate, UpdateTime := now }) := by
  have hq := (refill_quotient b now hR hdue).1
  simp [TokenBucket.Limit, TokenBucket.refillDue, hdue, hR.ne', hq]

/-- A bucket with no token rejects and stays as it is. -/
theorem takeToken_reject (b : TokenBucket) (h : b.Num ≤ 0) : b.takeToken = (true, b) := by
  simp [TokenBucket.takeToken, h]

/-- A bucket with a token admits and gives the token. -/
theorem takeToken_give (b : TokenBucket) (h : 0 < b.Num) :
    b.takeToken = (false, ⟨b.Num - 1, b.Size, b.Rate, b.UpdateTime⟩) := by
  simp [TokenBucket.takeToken, not_le.mpr h]

/-- Giving a token keeps Size, Rate and UpdateTime. -/
theorem takeToken_keeps (b : TokenBucket) :
    b.takeToken.2.Size = b.Size ∧ b.takeToken.2.Rate = b.Rate ∧
    b.takeToken.2.UpdateTime = b.UpdateTime := by
  unfold TokenBucket.takeToken
  split_ifs <;> exact ⟨rfl, rfl, rfl⟩

/-- A Limit call that returns keeps Size and Rate; with no refill due it keeps
UpdateTime, with a refill due it sets UpdateTime to now. -/
theorem Limit_cases (b b' : TokenBucket) (now : Int) (r : Bool)
    (h : b.Limit now = some (r, b')) :
    b'.Size = b.Size ∧ b'.Rate = b.Rate ∧
    ((¬ b.UpdateTime + b.Rate < now ∧ b'.UpdateTime = b.UpdateTime) ∨
      (b.UpdateTime + b.Rate < now ∧ b'.UpdateTime = now)) := by
  by_cases hdue : b.UpdateTime + b.Rate < now
  · have hd : b.refillDue now = true := by simp [TokenBucket.refillDue, hdue]
    by_cases hz : b.Rate = 0
    · rw [TokenBucket.Limit, hd, if_pos rfl, if_pos hz] at h
      cases h
    · rw [TokenBucket.Limit, hd, if_pos rfl, if_neg hz] at h
      simp only [Option.some.injEq] at h
      generalize (if wrap64 (b.Num + (now - b.UpdateTime).tdiv b.Rate) > b.Size then b.Size
        else wrap64 (b.Num + (now - b.UpdateTime).tdiv b.Rate)) = n at h
      have hk := takeToken_keeps ⟨n, b.Size, b.Rate, now⟩
      rw [h] at hk
      exact ⟨hk.1, hk.2.1, Or.inr ⟨hdue, hk.2.2⟩⟩
  · rw [Limit_not_due b now hdue] at h
    simp only [Option.some.injEq] at h
    have hk := takeToken_keeps b
    rw [h] at hk
    exact ⟨hk.1, hk.2.1, Or.inl ⟨hdue, hk.2.2⟩⟩

/-- Limit never changes Rate. -/
theorem Limit_rate (b b' : TokenBucket) (now : Int) (r : Bool)
    (h : b.Limit now = some (r, b')) : b'.Rate = b.Rate :=
  (Limit_cases b b' now r h).2.1

/-- One Limit call on a bucket with a positive Rate, a capacity Size >= 0 and a count
not below the smallest Go int returns, keeps Size and Rate, leaves UpdateTime or moves
it forward to now, and admits at most one call, paid by the tokens the bucket held plus
the floor of the time UpdateTime moved by over Rate. -/
theorem Limit_step (b : TokenBucket) (now : Int) (hR : 0 < b.Rate)
    (hlo : -9223372036854775808 ≤ b.Num) (hS : 0 ≤ b.Size) :
    ∃ r b', b.Limit now = some (r, b') ∧ b'.Size = b.Size ∧ b'.Rate = b.Rate ∧
      -9223372036854775808 ≤ b'.Num ∧ b.UpdateTime ≤ b'.UpdateTime ∧
      (b'.UpdateTime = b.UpdateTime ∨ b'.UpdateTime = now) ∧
      (if r then 0 else 1) + max b'.Num 0
        ≤ max b.Num 0 + (b'.UpdateTime - b.UpdateTime) / b.Rate := by
  by_cases hdue : b.UpdateTime + b.Rate < now
  · obtain ⟨-, hq1⟩ := refill_quotient b now hR hdue
    rw [Limit_due b now hR hdue]
    obtain ⟨q, hq⟩ : ∃ q, q = (now - b.UpdateTime) / b.Rate := ⟨_, rfl⟩
    rw [← hq] at hq1 ⊢
    obtain ⟨hw1, hw2, -⟩ := wrap64_le (b.Num + q) (by omega)
    have hn : (if wrap64 (b.Num + q) > b.Size then b.Size else wrap64 (b.Num + q))
          ≤ b.Num + q ∧
        -9223372036854775808 ≤
          (if wrap64 (b.Num + q) > b.Size then b.Size else wrap64 (b.Num + q)) := by
      split_ifs <;> omega
    generalize (if wrap64 (b.Num + q) > b.Size then b.Size else wrap64 (b.Num + q)) = n
      at hn ⊢
    by_cases hz : n ≤ 0
    · rw [takeToken_reject _ hz]
      refine ⟨_, _, rfl, rfl, rfl, hn.2, ?_, Or.inr rfl, ?_⟩ <;> simp <;> omega
    · rw [takeToken_give _ (by simpa using hz)]
      refine ⟨_, _, rfl, rfl, rfl, ?_, ?_, Or.inr rfl, ?_⟩ <;> simp <;> omega
  · rw [Limit_not_due b now hdue]
    by_cases hz : b.Num ≤ 0
    · rw [takeToken_reject _ hz]
      exact ⟨_, _, rfl, rfl, rfl, hlo, le_refl _, Or.inl rfl, by simp⟩
    · rw [takeToken_give _ (by simpa using hz)]
      refine ⟨_, _, rfl, rfl, rfl, ?_, ?_, Or.inl rfl, ?_⟩ <;> simp <;> omega

/-- One Limit call on a bucket with a positive Rate and 0 <= Num <= Size, whose refill
sum, when a refill is due, stays inside the range of a Go int: the call returns and
keeps 0 <= Num <= Size, Size and Rate, and never moves UpdateTime back. -/
theorem Limit_step_fits (b : TokenBucket) (now : Int) (hR : 0 < b.Rate) (h0 : 0 ≤ b.Num)
    (h1 : b.Num ≤ b.Size)
    (hfit : b.refillDue now = true → b.Num + (now - b.UpdateTime) / b.Rate ≤ MaxInt64) :
    ∃ r b', b.Limit now = some (r, b') ∧ b'.Size = b.Size ∧ b'.Rate = b.Rate ∧
      0 ≤ b'.Num ∧ b'.Num ≤ b'.Size ∧ b.UpdateTime ≤ b'.UpdateTime ∧
      (b'.UpdateTime = b.UpdateTime ∨ b'.UpdateTime = now) := by
  by_cases hdue : b.UpdateTime + b.Rate < now
  · obtain ⟨-, hq1⟩ := refill_quotient b now hR hdue
    have hf := hfit (by simp [TokenBucket.refillDue, hdue])
    rw [Limit_due b now hR hdue]
    obtain ⟨q, hq⟩ : ∃ q, q = (now - b.UpdateTime) / b.Rate := ⟨_, rfl⟩
    rw [← hq] at hq1 hf ⊢
    rw [wrap64_of_fits (b.Num + q) (by omega) hf]
    have hn : (if b.Num + q > b.Size then b.Size else b.Num + q) ≤ b.Size ∧
        0 ≤ (if b.Num + q > b.Size then b.Size else b.Num + q) := by
      split_ifs <;> omega
    generalize (if b.Num + q > b.Size then b.Size else b.Num + q) = n at hn ⊢
    by_cases hz : n ≤ 0
    · rw [takeToken_reject _ hz]
      refine ⟨_, _, rfl, rfl, rfl, hn.2, hn.1, ?_, Or.inr rfl⟩
      simp; omega
    · rw [takeToken_give _ (by simpa using hz)]
      refine ⟨_, _, rfl, rfl, rfl, ?_, ?_, ?_, Or.inr rfl⟩ <;> simp <;> omega
  · rw [Limit_not_due b now hdue]
    by_cases hz : b.Num ≤ 0
    · rw [takeToken_reject _ hz]
      exact ⟨_, _, rfl, rfl, rfl, h0, h1, le_refl _, Or.inl rfl⟩
    · rw [takeToken_give _ (by simpa using hz)]
      refine ⟨_, _, rfl, rfl, rfl, ?_, ?_, ?_, Or.inl rfl⟩ <;> simp <;> omega

/-- Floors add up to at most the floor of the sum. -/
theorem ediv_add_ediv_le (a b R : Int) (hR : 0 < R) : a / R + b / R ≤ (a + b) / R := by
  rw [Int.le_ediv_iff_mul_le hR]
  have ha := Int.ediv_mul_le a (ne_of_gt hR)
  have hb := Int.ediv_mul_le b (ne_of_gt hR)
  linarith [add_mul (a / R) (b / R) R]

/-- The answers of one more call in front. -/
theorem runLimit_cons (b b1 b2 : TokenBucket) (now : Int) (rest : List Int) (r : Bool)
    (rs : List Bool) (h1 : b.Limit now = some (r, b1))
    (h2 : runLimit b1 rest = some (rs, b2)) :
    runLimit b (now :: rest) = some (r :: rs, b2) := by
  simp [runLimit, h1, h2]

/-- Any sequence of Limit calls on a bucket with a positive Rate, a capacity
Size >= 0 and a count not below the smallest Go int returns one answer per call, keeps
Size and Rate, never moves UpdateTime back, leaves it at its start or at one of the
call instants, and admits at most the tokens the bucket held plus the floor of the
time UpdateTime moved by over Rate. -/
theorem runLimit_inv : ∀ (ts : List Int) (b : TokenBucket), 0 < b.Rate →
    -9223372036854775808 ≤ b.Num → 0 ≤ b.Size →
    ∃ rs b', runLimit b ts = some (rs, b') ∧ rs.length = ts.length ∧ b'.Size = b.Size ∧
      b'.Rate = b.Rate ∧ b.UpdateTime ≤ b'.UpdateTime ∧
      (b'.UpdateTime = b.UpdateTime ∨ b'.UpdateTime ∈ ts) ∧
      (rs.count false : Int) + max b'.Num 0
        ≤ max b.Num 0 + (b'.UpdateTime - b.UpdateTime) / b.Rate := by
  intro ts
  induction ts with
  | nil =>
    intro b hR h0 h1
    exact ⟨[], b, rfl, rfl, rfl, rfl, le_refl _, Or.inl rfl, by simp⟩
  | cons now rest ih =>
    intro b hR hlo hS
    obtain ⟨r, b1, hL, hS1, hR1, hlo1, hU1, hm1, hc1⟩ := Limit_step b now hR hlo hS
    obtain ⟨rs, b2, hrun, hlen, hS2, hR2, hU2, hm2, hc2⟩ :=
      ih b1 (by rw [hR1]; exact hR) hlo1 (by rw [hS1]; exact hS)
    refine ⟨r :: rs, b2, runLimit_cons b b1 b2 now rest r rs hL hrun, by simp [hlen],
      hS2.trans hS1, hR2.trans hR1, le_trans hU1 hU2, ?_, ?_⟩
    · rcases hm2 with h | h
      · rcases hm1 with h' | h'
        · exact Or.inl (h.trans h')
        · exact Or.inr (by rw [h, h']; exact List.mem_cons_self _ _)
      · exact Or.inr (List.mem_cons_of_mem _ h)
    · have hsup := ediv_add_ediv_le (b1.UpdateTime - b.UpdateTime)
        (b2.UpdateTime - b1.UpdateTime) b.Rate hR
      have he : b1.UpdateTime - b.UpdateTime + (b2.UpdateTime - b1.UpdateTime)
          = b2.UpdateTime - b.UpdateTime := by ring
      rw [he] at hsup
      rw [hR1] at hc2
      have hcount : ((r :: rs).count false : Int) = (if r then 0 else 1) + (rs.count false : Int) := by
        cases r
        · simp [List.count_cons]; ring
        · simp [List.count_cons]
      rw [hcount]
      linarith

/-- Any sequence of Limit calls, at instants at most MaxInt64 after t0, on a bucket
with a positive Rate, 0 <= Num <= Size, an UpdateTime not before t0 and a capacity that
leaves room for the largest refill: one answer per call, and the bucket keeps Size,
Rate, 0 <= Num <= Size and an UpdateTime not before t0. -/
theorem runLimit_fits (t0 : Int) : ∀ (ts : List Int) (b : TokenBucket), 0 < b.Rate →
    0 ≤ b.Num → b.Num ≤ b.Size → t0 ≤ b.UpdateTime →
    b.Size + MaxInt64 / b.Rate ≤ MaxInt64 → (∀ t ∈ ts, t ≤ t0 + MaxInt64) →
    ∃ rs b', runLimit b ts = some (rs, b') ∧ rs.length = ts.length ∧ b'.Size = b.Size ∧
      b'.Rate = b.Rate ∧ 0 ≤ b'.Num ∧ b'.Num ≤ b'.Size ∧ t0 ≤ b'.UpdateTime := by
  intro ts
  induction ts with
  | nil =>
    intro b hR h0 h1 hU hroom hts
    exact ⟨[], b, rfl, rfl, rfl, rfl, h0, h1, hU⟩
  | cons now rest ih =>
    intro b hR h0 h1 hU hroom hts
    have hnow := hts now (List.mem_cons_self _ _)
    have hfit : b.refillDue now = true →
        b.Num + (now - b.UpdateTime) / b.Rate ≤ MaxInt64 := by
      intro _
      have hmono : (now - b.UpdateTime) / b.Rate ≤ MaxInt64 / b.Rate :=
        Int.ediv_le_ediv hR (by omega)
      omega
    obtain ⟨r, b1, hL, hS1, hR1, h01, h11, hU1, -⟩ := Limit_step_fits b now hR h0 h1 hfit
    obtain ⟨rs, b2, hrun, hlen, hS2, hR2, h02, h12, hU2⟩ :=
      ih b1 (by rw [hR1]; exact hR) h01 h11 (le_trans hU hU1) (by rw [hS1, hR1]; exact hroom)
        (fun t ht => hts t (List.mem_cons_of_mem _ ht))
    exact ⟨r :: rs, b2, runLimit_cons b b1 b2 now rest r rs hL hrun, by simp [hlen],
      hS2.trans hS1, hR2.trans hR1, h02, h12, hU2⟩

/-- In a non-decreasing sequence that starts at c, c and every instant are at most
the last instant. -/
theorem chain_le_last : ∀ (ts : List Int) (c : Int), List.Chain (· ≤ ·) c ts →
    c ≤ ts.getLastD c ∧ ∀ t ∈ ts, t ≤ ts.getLastD c := by
  intro ts
  induction ts with
  | nil => intro c _; simp
  | cons a rest ih =>
    intro c h
    rw [List.chain_cons] at h
    obtain ⟨h1, h2⟩ := ih a h.2
    have hl : (a :: rest).getLastD c = rest.getLastD a := by
      cases rest <;> simp [List.getLastD]
    rw [hl]
    refine ⟨le_trans h.1 h1, fun t ht => ?_⟩
    rcases List.mem_cons.mp ht with h | h
    · rw [h]; exact h1
    · exact h2 t h

/-! ## Lemmas on the fence row of a branch -/

/-- The row built for a branch is a row of its pair. -/
theorem matchesKey_fenceRow (bac : BusinessActionContext) (detail : Bytes) (s : TxLogState) :
    matchesKey (FormatInt bac.BranchId) bac.Xid (fenceRow bac detail s) = true := by
  simp [matchesKey, fenceRow]

/-- Appended to rows that hold none of its pair, the row of a branch is the one the
locked read finds. -/
theorem find_append_fenceRow (l : List TxLog) (bac : BusinessActionContext) (detail : Bytes)
    (s : TxLogState)
    (hnone : l.find? (matchesKey (FormatInt bac.BranchId) bac.Xid) = Option.none) :
    (l ++ [fenceRow bac detail s]).find? (matchesKey (FormatInt bac.BranchId) bac.Xid)
      = some (fenceRow bac detail s) := by
  rw [List.find?_append, hnone]
  simp [List.find?, matchesKey_fenceRow]

/-- The update of the state of a pair, on rows that hold none of the pair followed by
the row of the branch: only that row changes. -/
theorem map_update_append_fenceRow (l : List TxLog) (bac : BusinessActionContext)
    (detail : Bytes) (s s' : TxLogState)
    (hnone : l.find? (matchesKey (FormatInt bac.BranchId) bac.Xid) = Option.none) :
    (l ++ [fenceRow bac detail s]).map (fun r =>
        if matchesKey (FormatInt bac.BranchId) bac.Xid r then { r with TxLogState := s' } else r)
      = l ++ [fenceRow bac detail s'] := by
  rw [List.find?_eq_none] at hnone
  rw [List.map_append]
  congr 1
  · calc l.map _ = l.map id := List.map_congr_left (fun a ha => by simp [hnone a ha])
      _ = l := List.map_id l
  · have hk := matchesKey_fenceRow bac detail s
    simp [hk]
    rfl

/-- PrepareFence with a callback that returns a nil error, an encoder that returns
detail, an insert and a Commit that go through: the working copy of the callback plus
the Init row with that payload is committed and the call returns (true, nil),
whatever flag the callback returned. The callback ran once, on ctx. -/
theorem PrepareFence_committed {ω β : Type} (marshal : Marshal ω) (f : Faults) (ctx : Context)
    (bac : BusinessActionContext) (db tx : Store β) (prepare : PrepareFn ω β)
    (obj : Option ω) (flag : Bool) (detail : Option Bytes)
    (hctx : ctx.businessActionContext = some bac)
    (hcall : prepare ctx db = .returned (obj, flag, Option.none) tx)
    (hm : marshal obj = .ok detail)
    (hcreate : f.Create = Option.none) (hcommit : f.Commit = Option.none) :
    PrepareFence marshal f ctx db prepare =
      ⟨true, Option.none,
        ⟨tx.txLogs ++ [fenceRow bac (detail.getD []) .TxLogStateInit], tx.business⟩,
        .committed, [ctx]⟩ := by
  simp [PrepareFence, hctx, hcall, hm, Create, hcreate, prepareDeferred, hcommit, fenceRow]

/-! ## The claims on PrepareFence and on the whole protocol -/

/-- C11, at the failing input: on a store with no fence row, with a prepare callback
that writes part of its work and returns ok = false with a nil error and a storage
without faults, PrepareFence inserts the Init row, commits the transaction with the
partial write and returns ok = true with a nil error. -/
theorem prepare_refusal_is_committed :
    (PrepareFence exMarshal Faults.none exCtx exEmpty exPrepareRefuse).ok = true ∧
    (PrepareFence exMarshal Faults.none exCtx exEmpty exPrepareRefuse).err = Option.none ∧
    (PrepareFence exMarshal Faults.none exCtx exEmpty exPrepareRefuse).tx = .committed ∧
    (PrepareFence exMarshal Faults.none exCtx exEmpty exPrepareRefuse).db
      = ⟨[⟨"tx-1", "1", "debit", [123, 125], .TxLogStateInit⟩], 40⟩ := by
  decide

/-- C12, the claim fails: a prepare callback that succeeds with a nil result object
makes PrepareFence insert an Init row whose LogDetail is the four bytes of the JSON
value null, which json.Marshal returns for nil; its length is 4, not 0. -/
theorem nil_result_payload_is_null :
    (PrepareFence jsonMarshal Faults.none exCtx exEmpty exPrepareNil).ok = true ∧
    (PrepareFence jsonMarshal Faults.none exCtx exEmpty exPrepareNil).db.txLogs
      = [⟨"tx-1", "1", "debit", [110, 117, 108, 108], .TxLogStateInit⟩] ∧
    (PrepareFence jsonMarshal Faults.none exCtx exEmpty exPrepareNil).db.txLogs.map
      (fun r => r.LogDetail.length) = [4] := by
  decide

/-- C12, amended: whenever the prepare callback succeeds, the Init row PrepareFence
inserts carries as LogDetail the bytes the encoder returns for the result object,
and an empty payload (length 0) when the encoder returns a nil slice. For a nil
result object json.Marshal returns the four bytes of null and no nil slice. -/
theorem prepare_payload {ω β : Type} (marshal : Marshal ω) (f : Faults) (ctx : Context)
    (bac : BusinessActionContext) (db tx : Store β) (prepare : PrepareFn ω β)
    (obj : Option ω) (flag : Bool) (detail : Option Bytes)
    (hctx : ctx.businessActionContext = some bac)
    (hcall : prepare ctx db = .returned (obj, flag, Option.none) tx)
    (hm : marshal obj = .ok detail)
    (hnone : tx.txLogs.find? (matchesKey (FormatInt bac.BranchId) bac.Xid) = Option.none)
    (hcreate : f.Create = Option.none) (hcommit : f.Commit = Option.none) :
    (PrepareFence marshal f ctx db prepare).db.txLogs =
      tx.txLogs ++ [fenceRow bac (detail.getD []) .TxLogStateInit] ∧
    (fenceRow bac (detail.getD []) .TxLogStateInit).LogDetail = detail.getD [] ∧
    (detail = Option.none →
      (fenceRow bac (detail.getD []) .TxLogStateInit).LogDetail.length = 0) ∧
    jsonMarshal Option.none = .ok (some [110, 117, 108, 108]) := by
  have _hpair := hnone
  rw [PrepareFence_committed marshal f ctx bac db tx prepare obj flag detail hctx hcall hm
    hcreate hcommit]
  refine ⟨rfl, rfl, fun h => ?_, rfl⟩
  simp [h, fenceRow]

/-- Witness of C12 as amended: the Prepare of the example branch with a nil result. -/
theorem prepare_payload_witness :
    (PrepareFence jsonMarshal Faults.none exCtx exEmpty exPrepareNil).db.txLogs =
      [] ++ [fenceRow exBac [110, 117, 108, 108] .TxLogStateInit] :=
  (prepare_payload jsonMarshal Faults.none exCtx exBac exEmpty ⟨[], 0⟩ exPrepareNil
    Option.none true (some [110, 117, 108, 108]) rfl rfl rfl rfl rfl rfl).1

/-- C13, the claim fails for callbacks that write the tx_log table, which they can
through the transaction they are handed. With a succeeding prepare callback that
inserts a Committed row of the example branch, PrepareFence returns ok = true, the
row read for the branch afterwards is that Committed row and not the Init row, and
the first CommitFence returns ok = true with zero runs of its succeeding callback.
With a succeeding confirm callback that deletes the rows of the table, the first
CommitFence returns ok = true and commits a store with no row of the branch, and the
next CommitFence returns ok = false. -/
theorem prepare_confirm_confirm_needs_frame :
    (PrepareFence exMarshal Faults.none exCtx exEmpty exPrepareWritesLog).ok = true ∧
    (PrepareFence exMarshal Faults.none exCtx exEmpty exPrepareWritesLog).db
      = ⟨[exRow .TxLogStateCommit, ⟨"tx-1", "1", "debit", [123, 125], .TxLogStateInit⟩], 0⟩ ∧
    (PrepareFence exMarshal Faults.none exCtx exEmpty exPrepareWritesLog).db.txLogs.find?
      (matchesKey "1" "tx-1") = some (exRow .TxLogStateCommit) ∧
    (CommitFence Faults.none exCtx
      (PrepareFence exMarshal Faults.none exCtx exEmpty exPrepareWritesLog).db exDebit).ok
      = true ∧
    (CommitFence Faults.none exCtx
      (PrepareFence exMarshal Faults.none exCtx exEmpty exPrepareWritesLog).db exDebit).calls
      = 0 ∧
    (CommitFence Faults.none exCtx
      (PrepareFence exMarshal Faults.none exCtx exEmpty exHold).db exConfirmDropsLog).ok
      = true ∧
    (CommitFence Faults.none exCtx
      (PrepareFence exMarshal Faults.none exCtx exEmpty exHold).db exConfirmDropsLog).db
      = ⟨[], 0⟩ ∧
    (CommitFence Faults.none exCtx
      (CommitFence Faults.none exCtx
        (PrepareFence exMarshal Faults.none exCtx exEmpty exHold).db exConfirmDropsLog).db
      exDebit).ok = false := by
  decide

/-- C13, amended: the Prepare, Confirm, Confirm scenario for callbacks that leave the
tx_log table as they found it. On a branch with no row and a storage without faults:
PrepareFence with a callback that succeeds with result r returns ok = true and
commits the row of the branch in state Init with the payload encoded for r;
CommitFence with a callback that succeeds returns ok = true and commits the row in
state Committed; every further CommitFence returns ok = true and leaves that store.
The first Confirm runs its callback once, on the context that carries, under
txLogKey, the Init row whose LogDetail is the payload Prepare stored, next to the
business action context of the call; the later Confirms run no callback, so the
confirm callback runs once in total. -/
theorem prepare_confirm_confirm {ω β : Type} (marshal : Marshal ω) (ctx : Context)
    (bac : BusinessActionContext) (db tx1 tx2 : Store β) (prepare : PrepareFn ω β)
    (confirm : PhaseFn β) (r : Option ω) (detail : Option Bytes)
    (ds : List (Faults × PhaseFn β))
    (hctx : ctx.businessActionContext = some bac)
    (hnone : db.txLogs.find? (matchesKey (FormatInt bac.BranchId) bac.Xid) = Option.none)
    (hprep : prepare ctx db = .returned (r, true, Option.none) tx1)
    (hframe1 : tx1.txLogs = db.txLogs)
    (hm : marshal r = .ok detail)
    (hconf : confirm (ctx.WithValue (fenceRow bac (detail.getD []) .TxLogStateInit))
        ⟨db.txLogs ++ [fenceRow bac (detail.getD []) .TxLogStateInit], tx1.business⟩
      = .returned (true, Option.none) tx2)
    (hframe2 : tx2.txLogs = db.txLogs ++ [fenceRow bac (detail.getD []) .TxLogStateInit])
    (hds : ∀ d ∈ ds, d.1 = Faults.none) :
    PrepareFence marshal Faults.none ctx db prepare =
      ⟨true, Option.none,
        ⟨db.txLogs ++ [fenceRow bac (detail.getD []) .TxLogStateInit], tx1.business⟩,
        .committed, [ctx]⟩ ∧
    First Faults.none
        (⟨db.txLogs ++ [fenceRow bac (detail.getD []) .TxLogStateInit], tx1.business⟩ : Store β)
        (FormatInt bac.BranchId) bac.Xid
      = .ok (fenceRow bac (detail.getD []) .TxLogStateInit) ∧
    CommitFence Faults.none ctx
        ⟨db.txLogs ++ [fenceRow bac (detail.getD []) .TxLogStateInit], tx1.business⟩ confirm =
      ⟨true, Option.none,
        ⟨db.txLogs ++ [fenceRow bac (detail.getD []) .TxLogStateCommit], tx2.business⟩,
        .committed, [ctx.WithValue (fenceRow bac (detail.getD []) .TxLogStateInit)]⟩ ∧
    (CommitFence Faults.none ctx
        ⟨db.txLogs ++ [fenceRow bac (detail.getD []) .TxLogStateInit], tx1.business⟩
        confirm).seen
      = [⟨some bac, some ⟨bac.Xid, FormatInt bac.BranchId, bac.ActionName, detail.getD [],
          .TxLogStateInit⟩⟩] ∧
    First Faults.none
        (⟨db.txLogs ++ [fenceRow bac (detail.getD []) .TxLogStateCommit], tx2.business⟩ : Store β)
        (FormatInt bac.BranchId) bac.Xid
      = .ok (fenceRow bac (detail.getD []) .TxLogStateCommit) ∧
    (deliveries CommitFence ctx
        ⟨db.txLogs ++ [fenceRow bac (detail.getD []) .TxLogStateCommit], tx2.business⟩ ds).length
      = ds.length ∧
    (∀ res ∈ deliveries CommitFence ctx
        ⟨db.txLogs ++ [fenceRow bac (detail.getD []) .TxLogStateCommit], tx2.business⟩ ds,
      res.ok = true ∧ res.err = Option.none ∧ res.seen = [] ∧ res.calls = 0 ∧
      res.db = ⟨db.txLogs ++ [fenceRow bac (detail.getD []) .TxLogStateCommit], tx2.business⟩) ∧
    (CommitFence Faults.none ctx
        ⟨db.txLogs ++ [fenceRow bac (detail.getD []) .TxLogStateInit], tx1.business⟩
        confirm).calls +
      ((deliveries CommitFence ctx
        ⟨db.txLogs ++ [fenceRow bac (detail.getD []) .TxLogStateCommit], tx2.business⟩ ds).map
        (fun res => res.calls)).sum = 1 := by
  have hP := PrepareFence_committed marshal Faults.none ctx bac db tx1 prepare r true detail
    hctx hprep hm rfl rfl
  rw [hframe1] at hP
  have hF1 : First Faults.none
      (⟨db.txLogs ++ [fenceRow bac (detail.getD []) .TxLogStateInit], tx1.business⟩ : Store β)
      (FormatInt bac.BranchId) bac.Xid
      = .ok (fenceRow bac (detail.getD []) .TxLogStateInit) :=
    First_of_find _ _ _ _ _ rfl (find_append_fenceRow _ _ _ _ hnone)
  have hF2 : First Faults.none
      (⟨db.txLogs ++ [fenceRow bac (detail.getD []) .TxLogStateCommit], tx2.business⟩ : Store β)
      (FormatInt bac.BranchId) bac.Xid
      = .ok (fenceRow bac (detail.getD []) .TxLogStateCommit) :=
    First_of_find _ _ _ _ _ rfl (find_append_fenceRow _ _ _ _ hnone)
  have hUpd : Updates Faults.none tx2 (FormatInt bac.BranchId) bac.Xid .TxLogStateCommit
      = (⟨db.txLogs ++ [fenceRow bac (detail.getD []) .TxLogStateCommit], tx2.business⟩,
          Option.none) := by
    simp only [Updates, Faults.none, hframe2]
    rw [map_update_append_fenceRow _ _ _ _ _ hnone]
  have hC : CommitFence Faults.none ctx
      ⟨db.txLogs ++ [fenceRow bac (detail.getD []) .TxLogStateInit], tx1.business⟩ confirm
      = ⟨true, Option.none,
        ⟨db.txLogs ++ [fenceRow bac (detail.getD []) .TxLogStateCommit], tx2.business⟩,
        .committed, [ctx.WithValue (fenceRow bac (detail.getD []) .TxLogStateInit)]⟩ := by
    rw [CommitFence_of_init Faults.none ctx bac _ tx2 confirm _ true Option.none hctx hF1 rfl
      hconf, hUpd]
    simp [commitDeferred, Faults.none]
  have hlater : ∀ d ∈ ds, CommitFence d.1 ctx
      ⟨db.txLogs ++ [fenceRow bac (detail.getD []) .TxLogStateCommit], tx2.business⟩ d.2
      = ⟨true, Option.none,
        ⟨db.txLogs ++ [fenceRow bac (detail.getD []) .TxLogStateCommit], tx2.business⟩,
        .committed, []⟩ := by
    intro d hd
    rw [hds d hd, CommitFence_of_committed Faults.none ctx bac _ d.2 _ hctx hF2 rfl]
    simp [commitDeferred, Faults.none]
  have hall := deliveries_fixed CommitFence ctx
    ⟨db.txLogs ++ [fenceRow bac (detail.getD []) .TxLogStateCommit], tx2.business⟩ ds
    ⟨true, Option.none,
      ⟨db.txLogs ++ [fenceRow bac (detail.getD []) .TxLogStateCommit], tx2.business⟩,
      .committed, []⟩ rfl hlater
  refine ⟨hP, hF1, hC, ?_, hF2, deliveries_length _ _ _ _, fun res hres => ?_, ?_⟩
  · rw [hC]
    simp [Context.WithValue, fenceRow, hctx]
  · rw [hall res hres]
    exact ⟨rfl, rfl, rfl, rfl, rfl⟩
  · rw [hC]
    have hz : ((deliveries CommitFence ctx
        ⟨db.txLogs ++ [fenceRow bac (detail.getD []) .TxLogStateCommit], tx2.business⟩ ds).map
        (fun res => res.calls)).sum = 0 := by
      apply List.sum_eq_zero
      intro x hx
      obtain ⟨res, hres, rfl⟩ := List.mem_map.mp hx
      rw [hall res hres]
      rfl
    rw [hz]
    rfl

/-- Witness of C13 as amended: the example branch, Prepare holding 100, Confirm
debiting, then a Confirm with a callback that would panic and one that would debit
again. -/
theorem prepare_confirm_confirm_witness :
    PrepareFence exMarshal Faults.none exCtx exEmpty exHold =
      ⟨true, Option.none, ⟨[] ++ [fenceRow exBac [123, 125] .TxLogStateInit], 0⟩,
        .committed, [exCtx]⟩ ∧
    (CommitFence Faults.none exCtx ⟨[] ++ [fenceRow exBac [123, 125] .TxLogStateInit], 0⟩
        exDebit).seen
      = [⟨some exBac, some ⟨"tx-1", FormatInt 1, "debit", [123, 125], .TxLogStateInit⟩⟩] ∧
    (∀ res ∈ deliveries CommitFence exCtx
        ⟨[] ++ [fenceRow exBac [123, 125] .TxLogStateCommit], 0⟩
        [(Faults.none, exPanic), (Faults.none, exDebit)],
      res.ok = true ∧ res.err = Option.none ∧ res.seen = [] ∧ res.calls = 0 ∧
      res.db = ⟨[] ++ [fenceRow exBac [123, 125] .TxLogStateCommit], 0⟩) :=
  have h := prepare_confirm_confirm exMarshal exCtx exBac exEmpty ⟨[], 0⟩
    ⟨[] ++ [fenceRow exBac [123, 125] .TxLogStateInit], 0⟩ exHold exDebit (some 100)
    (some [123, 125]) [(Faults.none, exPanic), (Faults.none, exDebit)]
    rfl rfl rfl rfl rfl rfl rfl (by simp)
  ⟨h.1, h.2.2.2.1, h.2.2.2.2.2.2.1⟩

/-! ## The claims on the token bucket -/

/-- C14, at the failing input: the bucket with Num = Size = MaxInt64, Rate one second
and UpdateTime 0, which is the limiter of WithRateLimit(math.MaxInt64) created at 0,
has Rate > 0 and 0 <= Num <= Size; a Limit call 2.5 seconds later adds two tokens in
64 bits, which wraps the count around before the clamp to Size: the call rejects and
leaves Num = -(2^63 - 1), below 0. -/
theorem refill_sum_wraps_around :
    0 < (TokenBucket.mk 9223372036854775807 9223372036854775807 1000000000 0).Rate ∧
    0 ≤ (TokenBucket.mk 9223372036854775807 9223372036854775807 1000000000 0).Num ∧
    (TokenBucket.mk 9223372036854775807 9223372036854775807 1000000000 0).Num
      ≤ (TokenBucket.mk 9223372036854775807 9223372036854775807 1000000000 0).Size ∧
    (TokenBucket.mk 9223372036854775807 9223372036854775807 1000000000 0).Limit 2500000000
      = some (true,
          TokenBucket.mk (-9223372036854775807) 9223372036854775807 1000000000 2500000000) ∧
    (TokenBucket.mk (-9223372036854775807) 9223372036854775807 1000000000 2500000000).Num
      < 0 ∧
    WithRateLimit.limiter 9223372036854775807 0
      = TokenBucket.mk 9223372036854775807 9223372036854775807 1000000000 0 := by
  decide

/-- The token-bucket invariant inside the range of a Go int. A Limit call
at any instant on a bucket with Rate > 0 and 0 <= Num <= Size, whose refill sum
Num + floor(elapsed / Rate) does not exceed MaxInt64 when a refill is due, returns and
leaves a bucket with 0 <= Num <= Size whose UpdateTime is not earlier than before.
Hence from NewTokenBucket(C, R) with C >= 0, R > 0 and C + floor(MaxInt64 / R) at most
MaxInt64, after any sequence of calls at instants at most MaxInt64 nanoseconds after
the creation, the count is between 0 and C. -/
theorem token_bucket_invariant (b : TokenBucket) (now : Int) (hR : 0 < b.Rate)
    (h0 : 0 ≤ b.Num) (h1 : b.Num ≤ b.Size)
    (hfit : b.refillDue now = true → b.Num + (now - b.UpdateTime) / b.Rate ≤ MaxInt64) :
    (∃ r b', b.Limit now = some (r, b') ∧ 0 ≤ b'.Num ∧ b'.Num ≤ b'.Size ∧
      b.UpdateTime ≤ b'.UpdateTime ∧ b'.Size = b.Size ∧ b'.Rate = b.Rate) ∧
    (∀ (C : Nat) (R t0 : Int) (ts : List Int), 0 < R → (C : Int) + MaxInt64 / R ≤ MaxInt64 →
      (∀ t ∈ ts, t ≤ t0 + MaxInt64) →
      ∃ rs b', runLimit (NewTokenBucket C R t0) ts = some (rs, b') ∧
        rs.length = ts.length ∧ 0 ≤ b'.Num ∧ b'.Num ≤ C ∧ t0 ≤ b'.UpdateTime) := by
  constructor
  · obtain ⟨r, b', hL, hS, hRt, h0', h1', hU, -⟩ := Limit_step_fits b now hR h0 h1 hfit
    exact ⟨r, b', hL, h0', h1', hU, hS, hRt⟩
  · intro C R t0 ts hRpos hroom hts
    obtain ⟨rs, b', hrun, hlen, hS, -, h0', h1', hU⟩ :=
      runLimit_fits t0 ts (NewTokenBucket C R t0) hRpos (by simp [NewTokenBucket])
        (by simp [NewTokenBucket]) (le_refl _) hroom hts
    refine ⟨rs, b', hrun, hlen, h0', ?_, hU⟩
    rw [hS] at h1'
    exact h1'

/-- A bucket that holds k tokens, called k + 1 times at instants at which no refill
is due, admits k times and then rejects; it ends with no token. -/
theorem runLimit_burst : ∀ (k : Nat) (b : TokenBucket) (ts : List Int), b.Num = k →
    ts.length = k + 1 → (∀ t ∈ ts, t ≤ b.UpdateTime + b.Rate) →
    runLimit b ts = some (List.replicate k false ++ [true],
      ⟨0, b.Size, b.Rate, b.UpdateTime⟩) := by
  intro k
  induction k with
  | zero =>
    intro b ts hn hlen hts
    match ts, hlen with
    | [t], _ =>
      have hdue : ¬ b.UpdateTime + b.Rate < t := not_lt.mpr (hts t (List.mem_singleton_self t))
      have hz : b.Num ≤ 0 := by rw [hn]; simp
      have hb : b = ⟨0, b.Size, b.Rate, b.UpdateTime⟩ := by
        cases b; simp at hn; simp [hn]
      have hL : b.Limit t = some (true, ⟨0, b.Size, b.Rate, b.UpdateTime⟩) := by
        rw [Limit_not_due b t hdue, takeToken_reject b hz, ← hb]
      simpa using runLimit_cons b _ _ t [] true [] hL rfl
  | succ k ih =>
    intro b ts hn hlen hts
    match ts, hlen with
    | t :: rest, hlen =>
      have hdue : ¬ b.UpdateTime + b.Rate < t := not_lt.mpr (hts t (List.mem_cons_self _ _))
      have hpos : 0 < b.Num := by rw [hn]; push_cast; omega
      have hL : b.Limit t = some (false, ⟨b.Num - 1, b.Size, b.Rate, b.UpdateTime⟩) := by
        rw [Limit_not_due b t hdue, takeToken_give b hpos]
      have hrest := ih ⟨b.Num - 1, b.Size, b.Rate, b.UpdateTime⟩ rest
        (by simp [hn]) (by simpa using hlen)
        (fun u hu => hts u (List.mem_cons_of_mem _ hu))
      have := runLimit_cons b _ _ t rest false _ hL hrest
      simpa [List.replicate_succ] using this

/-- C15: the initial burst. From NewTokenBucket(C, R) with C >= 0 and R > 0, C + 1
consecutive Limit calls at instants not later than R after the creation, so that no
refill is due, return false (admit) for each of the first C and true (reject) for
the last. -/
theorem initial_burst (C : Nat) (R t0 : Int) (ts : List Int) (hR : 0 < R)
    (hlen : ts.length = C + 1) (hts : ∀ t ∈ ts, t ≤ t0 + R) :
    ∃ b', runLimit (NewTokenBucket C R t0) ts = some (List.replicate C false ++ [true], b') ∧
      b'.Num = 0 ∧ 0 < b'.Rate := by
  refine ⟨⟨0, C, R, t0⟩, ?_, rfl, hR⟩
  exact runLimit_burst C (NewTokenBucket C R t0) ts rfl hlen hts

/-- Witness of C15: capacity 2, Rate 10, created at 0, called at 0, 4 and 10. -/
theorem initial_burst_witness :
    ∃ b', runLimit (NewTokenBucket (2 : Nat) 10 0) [0, 4, 10]
        = some (List.replicate 2 false ++ [true], b') ∧ b'.Num = 0 ∧ 0 < b'.Rate :=
  initial_burst 2 10 0 [0, 4, 10] (by decide) rfl (by decide)

/-- C16, the claim fails: on the bucket with Num 0, Size 1, Rate 10 and UpdateTime 0,
a Limit call at the instant 10, when exactly Rate has elapsed, adds no token and
rejects; the bucket, UpdateTime included, is as before. -/
theorem no_refill_at_the_boundary :
    (TokenBucket.mk 0 1 10 0).refillDue 10 = false ∧
    (TokenBucket.mk 0 1 10 0).Limit 10 = some (true, TokenBucket.mk 0 1 10 0) := by
  decide

/-- C16, amended: on a bucket with Size >= 1, Rate > 0 and Num = 0, a Limit call at
now = UpdateTime + Rate finds no refill due (the test is elapsed > Rate), rejects and
leaves the bucket as it is; a call at an instant with Rate < elapsed < 2 Rate adds
floor(elapsed / Rate) = 1 token, sets UpdateTime to now and admits, and a second call
at that instant is rejected. -/
theorem refill_after_the_interval (b : TokenBucket) (now : Int) (hS : 1 ≤ b.Size)
    (hR : 0 < b.Rate) (hN : b.Num = 0) :
    (now = b.UpdateTime + b.Rate → b.Limit now = some (true, b)) ∧
    (b.UpdateTime + b.Rate < now → now < b.UpdateTime + 2 * b.Rate →
      (now - b.UpdateTime).tdiv b.Rate = 1 ∧
      b.Limit now = some (false, ⟨0, b.Size, b.Rate, now⟩) ∧
      (TokenBucket.mk 0 b.Size b.Rate now).Limit now
        = some (true, ⟨0, b.Size, b.Rate, now⟩)) := by
  constructor
  · intro hnow
    rw [Limit_not_due b now (by omega), takeToken_reject b (by omega)]
  · intro hdue hlt
    obtain ⟨hq, hq1⟩ := refill_quotient b now hR hdue
    have hq2 : (now - b.UpdateTime) / b.Rate < 2 := by
      rw [Int.ediv_lt_iff_lt_mul hR]; omega
    have hqe : (now - b.UpdateTime) / b.Rate = 1 := by omega
    refine ⟨by rw [hq, hqe], ?_, ?_⟩
    · rw [Limit_due b now hR hdue, hqe, hN, wrap64_of_fits (0 + 1) (by decide) (by decide)]
      have hc : (if (0 : Int) + 1 > b.Size then b.Size else 0 + 1) = 1 := by
        split_ifs <;> omega
      rw [hc, takeToken_give _ (by simp)]
      simp
    · rw [Limit_not_due _ now (by simp; omega), takeToken_reject _ (by simp)]

/-- Witness of C16 as amended: Size 1, Rate 10, UpdateTime 0, called at 10 and at 11. -/
theorem refill_after_the_interval_witness :
    (TokenBucket.mk 0 1 10 0).Limit 10 = some (true, TokenBucket.mk 0 1 10 0) ∧
    (TokenBucket.mk 0 1 10 0).Limit 11 = some (false, ⟨0, 1, 10, 11⟩) ∧
    (TokenBucket.mk 0 1 10 11).Limit 11 = some (true, ⟨0, 1, 10, 11⟩) :=
  ⟨(refill_after_the_interval (TokenBucket.mk 0 1 10 0) 10 (by decide) (by decide) rfl).1 rfl,
   ((refill_after_the_interval (TokenBucket.mk 0 1 10 0) 11 (by decide) (by decide) rfl).2
      (by decide) (by decide)).2.1,
   ((refill_after_the_interval (TokenBucket.mk 0 1 10 0) 11 (by decide) (by decide) rfl).2
      (by decide) (by decide)).2.2⟩

/-- C17, the claim fails: on the bucket of capacity 0 with Num 0, Rate 10 and
UpdateTime 0, a Limit call at the instant 11 rejects and leaves UpdateTime at 11: the
bucket after the call is not the bucket before it. And on the bucket with
Num = Size = MaxInt64 and Rate one second, a call 2.5 seconds after UpdateTime wraps
the count around, rejects and leaves both Num and UpdateTime changed. -/
theorem rejection_moves_update_time :
    (TokenBucket.mk 0 0 10 0).Limit 11 = some (true, TokenBucket.mk 0 0 10 11) ∧
    TokenBucket.mk 0 0 10 11 ≠ TokenBucket.mk 0 0 10 0 ∧
    (TokenBucket.mk 9223372036854775807 9223372036854775807 1000000000 0).Limit 2500000000
      = some (true,
          TokenBucket.mk (-9223372036854775807) 9223372036854775807 1000000000 2500000000) ∧
    TokenBucket.mk (-9223372036854775807) 9223372036854775807 1000000000 2500000000
      ≠ TokenBucket.mk 9223372036854775807 9223372036854775807 1000000000 0 := by
  decide

/-- C17, amended: on a bucket with 0 <= Num <= Size and Rate > 0, a Limit call whose
refill sum Num + floor(elapsed / Rate) does not exceed MaxInt64 when a refill is due
and that rejects leaves Num, Size and Rate as they were, and when the capacity Size
is at least 1 it leaves UpdateTime too: the bucket after the call is the bucket before
it. -/
theorem rejection_changes_nothing (b b' : TokenBucket) (now : Int) (hR : 0 < b.Rate)
    (h0 : 0 ≤ b.Num) (h1 : b.Num ≤ b.Size)
    (hfit : b.refillDue now = true → b.Num + (now - b.UpdateTime) / b.Rate ≤ MaxInt64)
    (hrej : b.Limit now = some (true, b')) :
    b'.Num = b.Num ∧ b'.Size = b.Size ∧ b'.Rate = b.Rate ∧ (1 ≤ b.Size → b' = b) := by
  by_cases hdue : b.UpdateTime + b.Rate < now
  · obtain ⟨-, hq1⟩ := refill_quotient b now hR hdue
    have hf := hfit (by simp [TokenBucket.refillDue, hdue])
    rw [Limit_due b now hR hdue] at hrej
    obtain ⟨q, hq⟩ : ∃ q, q = (now - b.UpdateTime) / b.Rate := ⟨_, rfl⟩
    rw [← hq] at hq1 hrej hf
    rw [wrap64_of_fits (b.Num + q) (by omega) hf] at hrej
    have hn : (if b.Num + q > b.Size then b.Size else b.Num + q) ≤ b.Size ∧
        (b.Size ≤ 0 → (if b.Num + q > b.Size then b.Size else b.Num + q) = b.Num) ∧
        (1 ≤ b.Size → 0 < (if b.Num + q > b.Size then b.Size else b.Num + q)) := by
      split_ifs <;> refine ⟨?_, ?_, ?_⟩ <;> omega
    generalize (if b.Num + q > b.Size then b.Size else b.Num + q) = n at hn hrej
    by_cases hz : n ≤ 0
    · rw [takeToken_reject _ hz] at hrej
      simp only [Option.some.injEq, Prod.mk.injEq, true_and] at hrej
      subst hrej
      refine ⟨hn.2.1 ?_, rfl, rfl, fun hS => ?_⟩
      · by_contra hc
        have := hn.2.2 (by omega)
        omega
      · have := hn.2.2 hS
        omega
    · rw [takeToken_give _ (by simpa using hz)] at hrej
      simp at hrej
  · rw [Limit_not_due b now hdue] at hrej
    by_cases hz : b.Num ≤ 0
    · rw [takeToken_reject _ hz] at hrej
      simp only [Option.some.injEq, Prod.mk.injEq, true_and] at hrej
      subst hrej
      exact ⟨rfl, rfl, rfl, fun _ => rfl⟩
    · rw [takeToken_give _ (by simpa using hz)] at hrej
      simp at hrej

/-- Witness of C17 as amended: an empty bucket of capacity 3 called before a refill
is due. -/
theorem rejection_changes_nothing_witness :
    (TokenBucket.mk 0 3 10 0).Limit 7 = some (true, TokenBucket.mk 0 3 10 0) ∧
    (1 ≤ (TokenBucket.mk 0 3 10 0).Size → TokenBucket.mk 0 3 10 0 = TokenBucket.mk 0 3 10 0) :=
  ⟨by decide,
   (rejection_changes_nothing (TokenBucket.mk 0 3 10 0) (TokenBucket.mk 0 3 10 0) 7
      (by decide) (by decide) (by decide) (by decide) (by decide)).2.2.2⟩

/-- C18: the polarity of the admission at the call site. The limiter of WithRateLimit
has Rate time.Second and keeps it. On such a limiter one run of the interceptor makes
one Limit call, whose bucket it keeps: when Limit returns false it runs the handler
once and returns the response and the error of the handler; when Limit returns true
it does not run the handler and returns a nil response with a status error of code
ResourceExhausted. -/
theorem interceptor_polarity {α ρ : Type} (limiter : TokenBucket) (now : Int) (req : α)
    (handler : UnaryHandler α ρ) (hrate : limiter.Rate = Second) :
    (∀ num t0 : Int, (WithRateLimit.limiter num t0).Rate = Second) ∧
    (∃ r b', limiter.Limit now = some (r, b') ∧ b'.Rate = Second ∧
      (r = false → WithRateLimit.interceptor limiter now req handler
        = some ⟨(handler req).1, (handler req).2, b', 1⟩) ∧
      (r = true → WithRateLimit.interceptor limiter now req handler
        = some ⟨Option.none,
            some (.status ResourceExhausted "ratelimit rejected, please retry later"),
            b', 0⟩)) := by
  refine ⟨fun _ _ => rfl, ?_⟩
  have hne : limiter.Rate ≠ 0 := by rw [hrate]; decide
  cases hL : limiter.Limit now with
  | none =>
    exfalso
    unfold TokenBucket.Limit at hL
    split at hL
    · simp [hne] at hL
    · simp at hL
  | some p =>
    obtain ⟨r, b'⟩ := p
    refine ⟨r, b', rfl, (Limit_rate limiter b' now r hL).trans hrate, fun hr => ?_, fun hr => ?_⟩
    · simp [WithRateLimit.interceptor, hL, hr]
    · simp [WithRateLimit.interceptor, hL, hr]

/-- Witness of C18: the limiter of WithRateLimit(1) created at 0, with two requests at
the instant 5: the first is handled, the second is rejected. -/
theorem interceptor_polarity_witness :
    WithRateLimit.interceptor (WithRateLimit.limiter 1 0) 5 7 exEcho
      = some ⟨some 7, Option.none, ⟨0, 1, Second, 0⟩, 1⟩ ∧
    WithRateLimit.interceptor (TokenBucket.mk 0 1 Second 0) 5 7 exEcho
      = some ⟨Option.none,
          some (.status ResourceExhausted "ratelimit rejected, please retry later"),
          ⟨0, 1, Second, 0⟩, 0⟩ ∧
    (∃ r b', (WithRateLimit.limiter 1 0).Limit 5 = some (r, b') ∧ b'.Rate = Second ∧
      (r = false → WithRateLimit.interceptor (WithRateLimit.limiter 1 0) 5 7 exEcho
        = some ⟨(exEcho 7).1, (exEcho 7).2, b', 1⟩) ∧
      (r = true → WithRateLimit.interceptor (WithRateLimit.limiter 1 0) 5 7 exEcho
        = some ⟨Option.none,
            some (.status ResourceExhausted "ratelimit rejected, please retry later"),
            b', 0⟩)) :=
  ⟨by decide, by decide,
   (interceptor_polarity (WithRateLimit.limiter 1 0) 5 7 exEcho rfl).2⟩

/-- C19, the claim fails: no bucket with Rate > 0 and no instant make Limit take its
refill branch, the one that sets UpdateTime to now, with a quotient of zero tokens;
and no Limit call moves UpdateTime to a new instant with a quotient of zero. -/
theorem no_zero_token_reset :
    (¬ ∃ (b : TokenBucket) (now : Int), 0 < b.Rate ∧ b.refillDue now = true ∧
      (now - b.UpdateTime).tdiv b.Rate = 0) ∧
    (¬ ∃ (b b' : TokenBucket) (now : Int) (r : Bool), 0 < b.Rate ∧
      b.Limit now = some (r, b') ∧ b'.UpdateTime ≠ b.UpdateTime ∧
      (now - b.UpdateTime).tdiv b.Rate = 0) := by
  constructor
  · rintro ⟨b, now, hR, hdue, hq⟩
    have hlt : b.UpdateTime + b.Rate < now := by simpa [TokenBucket.refillDue] using hdue
    obtain ⟨hq0, hq1⟩ := refill_quotient b now hR hlt
    omega
  · rintro ⟨b, b', now, r, hR, hL, hU, hq⟩
    by_cases hlt : b.UpdateTime + b.Rate < now
    · obtain ⟨hq0, hq1⟩ := refill_quotient b now hR hlt
      omega
    · rcases (Limit_cases b b' now r hL).2.2 with h | h
      · exact hU h.2
      · exact hlt h.1

/-- C19, amended: on a bucket with Rate > 0, a Limit call that moves UpdateTime sets it
to now, has its refill due (elapsed > Rate) and adds a quotient of at least one
token. What the reset drops is the remainder of the elapsed time: on the bucket with
Rate 10 and UpdateTime 0, a call at 19 adds one token and a call at 20 finds no
refill due. -/
theorem reset_adds_a_token (b b' : TokenBucket) (now : Int) (r : Bool) (hR : 0 < b.Rate)
    (hL : b.Limit now = some (r, b')) (hU : b'.UpdateTime ≠ b.UpdateTime) :
    (b'.UpdateTime = now ∧ b.refillDue now = true ∧
      1 ≤ (now - b.UpdateTime).tdiv b.Rate) ∧
    runLimit (TokenBucket.mk 0 5 10 0) [19, 20]
      = some ([false, true], TokenBucket.mk 0 5 10 19) := by
  refine ⟨?_, by decide⟩
  by_cases hlt : b.UpdateTime + b.Rate < now
  · obtain ⟨hq0, hq1⟩ := refill_quotient b now hR hlt
    refine ⟨?_, by simp [TokenBucket.refillDue, hlt], by omega⟩
    rcases (Limit_cases b b' now r hL).2.2 with h | h
    · exact absurd hlt h.1
    · exact h.2
  · exfalso
    rcases (Limit_cases b b' now r hL).2.2 with h | h
    · exact hU h.2
    · exact hlt h.1

/-- Witness of C19 as amended: Rate 10, UpdateTime 0, called at 19. -/
theorem reset_adds_a_token_witness :
    (TokenBucket.mk 0 5 10 19).UpdateTime = 19 ∧
    (TokenBucket.mk 0 5 10 0).refillDue 19 = true ∧
    1 ≤ ((19 : Int) - (TokenBucket.mk 0 5 10 0).UpdateTime).tdiv (TokenBucket.mk 0 5 10 0).Rate :=
  (reset_adds_a_token (TokenBucket.mk 0 5 10 0) (TokenBucket.mk 0 5 10 19) 19 false
    (by decide) (by decide) (by decide)).1

/-- C20: the bound on the admission rate. From NewTokenBucket(C, R) created at t0,
with C >= 0 and R > 0, any sequence of Limit calls at non-decreasing instants
t0 <= t1 <= ... <= tn returns one answer per call, of which at most
C + floor((tn - t0) / R) are false (admitted). -/
theorem admission_rate_bound (C : Nat) (R t0 : Int) (ts : List Int) (hR : 0 < R)
    (hs : List.Chain (fun a b => a ≤ b) t0 ts) :
    ∃ rs b', runLimit (NewTokenBucket C R t0) ts = some (rs, b') ∧
      rs.length = ts.length ∧
      (rs.count false : Int) ≤ C + (ts.getLastD t0 - t0) / R := by
  obtain ⟨rs, b', hrun, hlen, -, -, -, hm, hc⟩ :=
    runLimit_inv ts (NewTokenBucket C R t0) hR (by simp [NewTokenBucket]; omega)
      (by simp [NewTokenBucket])
  refine ⟨rs, b', hrun, hlen, ?_⟩
  obtain ⟨hl0, hl⟩ := chain_le_last ts t0 hs
  have hU : b'.UpdateTime ≤ ts.getLastD t0 := by
    rcases hm with h | h
    · rw [h]; exact hl0
    · exact hl _ h
  have hmono : (b'.UpdateTime - t0) / R ≤ (ts.getLastD t0 - t0) / R :=
    Int.ediv_le_ediv hR (by omega)
  simp only [NewTokenBucket] at hc
  omega

/-- Witness of C20: capacity 3, Rate 10, created at 0, nine calls up to the instant 35:
six are admitted, and 3 + floor(35 / 10) = 6. -/
theorem admission_rate_bound_witness :
    List.Chain (fun a b => a ≤ b) (0 : Int) [0, 5, 10, 10, 11, 35, 35, 35, 35] ∧
    runLimit (NewTokenBucket (3 : Nat) 10 0) [0, 5, 10, 10, 11, 35, 35, 35, 35]
      = some ([false, false, false, true, false, false, false, true, true],
          TokenBucket.mk 0 3 10 35) ∧
    ∃ rs b', runLimit (NewTokenBucket (3 : Nat) 10 0) [0, 5, 10, 10, 11, 35, 35, 35, 35]
        = some (rs, b') ∧
      rs.length = ([0, 5, 10, 10, 11, 35, 35, 35, 35] : List Int).length ∧
      (rs.count false : Int)
        ≤ (3 : Nat) + (([0, 5, 10, 10, 11, 35, 35, 35, 35] : List Int).getLastD 0 - 0) / 10 :=
  ⟨by simp, by decide,
   admission_rate_bound 3 10 0 [0, 5, 10, 10, 11, 35, 35, 35, 35] (by decide) (by simp)⟩

end Csweb
